import Mathlib

/-!
Verification of the header/axis normalization core of suncasa (src/suncasa/io/ndfits.py).

The model below is a shallow embedding of the pure computational content of
ndfits.py.  An astropy Header is modelled as an ordered list of
keyword/value cards (string keys, dynamically typed values); n-dimensional
numpy arrays are modelled by their shape together with a flat element list
in C order, with an Option value per element so that NaN can be represented
(none = NaN).  Python operations that can raise (missing keys, bad unpack)
are modelled by Option-returning functions where none models an exception.
-/

/-- Values stored in a FITS header card: integers, floating-point numbers
(modelled as rationals) and strings. -/
inductive Val where
  | vint (n : ℤ)
  | vnum (q : ℚ)
  | vstr (s : String)
deriving DecidableEq, Repr

/-- Model of an astropy Header: an ordered list of keyword/value cards.
Keywords of cards written by astropy are normalized to upper case. -/
abbrev Header := List (String × Val)

/-- Lookup of the first card with the given keyword. -/
def hlookup : Header → String → Option Val
  | [], _ => none
  | (k1, v) :: t, k => if k1 = k then some v else hlookup t k

/-- Header assignment: update the first card with the keyword in place, or
append a new card at the end (astropy semantics for a fresh keyword). -/
def hset : Header → String → Val → Header
  | [], k, v => [(k, v)]
  | (k1, v1) :: t, k, v => if k1 = k then (k1, v) :: t else (k1, v1) :: hset t k v

/-- Header removal of the first card with the given keyword. -/
def hremove : Header → String → Header
  | [], _ => []
  | (k1, v1) :: t, k => if k1 = k then t else (k1, v1) :: hremove t k

/-- Keyword multiset of a header. -/
def hkeys (h : Header) : List String := h.map Prod.fst

/-- Python str.startswith, as a prefix test on the character data. -/
def pyStartsWith (s p : String) : Bool := p.data.isPrefixOf s.data

/-- Python str.upper on ASCII header keywords. -/
def pyUpper (s : String) : String := ⟨s.data.map Char.toUpper⟩

/-- Decimal digits of a natural number, least significant first, computed
with explicit fuel so that the kernel can evaluate it. -/
def natDigitsAux : ℕ → ℕ → List ℕ
  | 0, _ => []
  | fuel + 1, n => if n = 0 then [] else n % 10 :: natDigitsAux fuel (n / 10)

/-- Decimal digits of a natural number, least significant first. -/
def natDigits (n : ℕ) : List ℕ := natDigitsAux n n

/-- Character of a single decimal digit. -/
def digitChar (d : ℕ) : Char := Char.ofNat (48 + d)

/-- Decimal rendering of a natural number, exactly as Python str() renders
a nonnegative int. -/
def natStr (n : ℕ) : String :=
  if n = 0 then "0" else ⟨((natDigits n).map digitChar).reverse⟩

/-- Python format code 02d: zero-pad the decimal rendering to width two. -/
def pad2 (n : ℕ) : String := if n < 10 then "0" ++ natStr n else natStr n

/-- Axis-indexed keyword, e.g. CTYPE3 (Python format string base + index). -/
def axKey (base : String) (i : ℕ) : String := base ++ natStr i

/-- Keyword of the PC matrix entry (i, j) in the exact format used by
ndfits.py (format PC with 02d, underscore, d): the first index is
zero-padded to two digits, the second is not. -/
def pcKey (i j : ℕ) : String := "PC" ++ pad2 i ++ "_" ++ natStr j

/-- Python str.replace on character lists, scanning left to right and
replacing every non-overlapping occurrence of the (nonempty) pattern.
The fuel argument (the length of the scanned list) makes the recursion
structural. -/
def pyReplaceAux (pat rep : List Char) : ℕ → List Char → List Char
  | 0, s => s
  | fuel + 1, s =>
    match s with
    | [] => []
    | c :: rest =>
      if pat.isPrefixOf s then rep ++ pyReplaceAux pat rep fuel (s.drop pat.length)
      else c :: pyReplaceAux pat rep fuel rest

/-- Python str.replace (for a nonempty pattern, the only use in ndfits.py). -/
def pyReplace (s pat rep : String) : String :=
  ⟨pyReplaceAux pat.data rep.data s.data.length s.data⟩

/-- Helper for Python str.split on a single separator character. -/
def splitUAux : List Char → List Char → List (List Char)
  | [], acc => [acc.reverse]
  | c :: rest, acc =>
    if c = '_' then acc.reverse :: splitUAux rest [] else splitUAux rest (c :: acc)

/-- Python str.split with separator underscore. -/
def pySplitU (s : String) : List String := (splitUAux s.data []).map (fun l => ⟨l⟩)

/-- Condition under which a keyword is migrated by headerfix (lines 24-25 of
ndfits.py): upper-cased it starts with PC but not with PC0. -/
def badKey (k : String) : Bool :=
  pyStartsWith (pyUpper k) ("PC") && !(pyStartsWith (pyUpper k) ("PC0"))

/-- Main loop of headerfix (lines 22-36 of ndfits.py): iterate over the
keywords, and for every keyword matching badKey write a migrated card
keyed by PC0 followed by the keyword with PC removed (value: identity
entry when PC_coor, otherwise the original value) and record the keyword
for removal.  Keywords appended to the live header during the Python
iteration all start with PC0 and would be skipped, so iterating over the
initial keyword list is equivalent.  A failing unpack of the suffix split
(Python ValueError) or a missing key (KeyError) is modelled as none. -/
def headerfixLoop (PC_coor : Bool) : List String → Header → List String →
    Option (Header × List String)
  | [], h, rem => some (h, rem)
  | k :: ks, h, rem =>
    if badKey k then
      let pcidxs := pyReplace (pyUpper k) ("PC") ("")
      let hd2 := "PC0" ++ pcidxs
      if PC_coor then
        match pySplitU pcidxs with
        | [p0, p1] =>
          headerfixLoop PC_coor ks
            (hset h hd2 (if p0 = p1 then Val.vnum 1 else Val.vnum 0)) (rem ++ [k])
        | _ => none
      else
        match hlookup h k with
        | some v => headerfixLoop PC_coor ks (hset h hd2 v) (rem ++ [k])
        | none => none
    else headerfixLoop PC_coor ks h rem

/-- Model of headerfix (lines 16-39 of ndfits.py): migrate all badKey
cards, then remove the recorded keywords (first occurrence each, astropy
Header.remove semantics). -/
def headerfix (h : Header) (PC_coor : Bool) : Option Header := do
  let r ← headerfixLoop PC_coor (hkeys h) h []
  pure (r.2.foldl hremove r.1)

/-- The six axis-indexed keyword bases handled by headerparse and
headersqueeze (keys2analy and keys2chng in ndfits.py). -/
def keys2chng : List String := ["NAXIS", "CTYPE", "CRVAL", "CDELT", "CRPIX", "CUNIT"]

/-- Result record of headerparse (stokesinfo in ndfits.py). -/
structure StokesInfo where
  axis : Option ℕ
  headernew : Header
deriving DecidableEq, Repr

/-- Scan loop of headerparse (lines 50-53 of ndfits.py): the last axis
whose CTYPE value starts with STOKES wins; a missing CTYPE key or a
non-string value is a Python exception, modelled as none. -/
def hpAxisLoop (h : Header) : List ℕ → Option ℕ → Option (Option ℕ)
  | [], ax => some ax
  | dim :: rest, ax =>
    match hlookup h (axKey ("CTYPE") dim) with
    | some (.vstr s) =>
        hpAxisLoop h rest (if pyStartsWith s ("STOKES") then some dim else ax)
    | _ => none

/-- Second loop of headerparse (lines 54-58 of ndfits.py): copy the six
axis keys of the found axis, renumbered to axis 4. -/
def hpNewLoop (h : Header) (dim : ℕ) : List String → Header → Option Header
  | [], acc => some acc
  | k :: ks, acc =>
    match hlookup h (axKey k dim) with
    | some v => hpNewLoop h dim ks (hset acc (axKey k 4) v)
    | none => none

/-- Model of headerparse (lines 42-59 of ndfits.py). -/
def headerparse (h : Header) : Option StokesInfo :=
  match hlookup h ("NAXIS") with
  | some (.vint ndim) => do
    let ax ← hpAxisLoop h ((List.range ndim.toNat).map (· + 1)) none
    match ax with
    | some dim => do
      let hnew ← hpNewLoop h dim keys2chng []
      pure ⟨some dim, hnew⟩
    | none => pure ⟨none, []⟩
  | _ => none

/-- Model of a numpy n-dimensional array: its shape and its elements in
C order; none models NaN. -/
structure NDArray where
  shape : List ℕ
  elems : List (Option ℚ)
deriving DecidableEq, Repr

/-- Number of dimensions of the array. -/
def NDArray.ndim (d : NDArray) : ℕ := d.shape.length

/-- Model of numpy squeeze: remove all length-1 axes; the flat C-order
element data is unchanged. -/
def NDArray.squeeze (d : NDArray) : NDArray :=
  { shape := d.shape.filter (fun x => x ≠ 1), elems := d.elems }

/-- Processing of one keyword base for one axis inside headersqueeze
(lines 84-93 of ndfits.py): read and remove the axis-indexed card; for a
non-singleton axis re-add it under the compacted index cnt; for a
singleton STOKES CTYPE persist the CRVAL value under the STOKES key. -/
def axisStep (idx dim cnt : ℕ) (h : Header) (k : String) : Option Header := do
  let v ← hlookup h (axKey k (idx + 1))
  let h1 := hremove h (axKey k (idx + 1))
  if 1 < dim then
    pure (hset h1 (axKey k cnt) v)
  else
    if k = "CTYPE" then
      match v with
      | .vstr s =>
        if pyStartsWith s ("STOKES") then do
          let c ← hlookup h1 (axKey ("CRVAL") (idx + 1))
          pure (hset h1 ("STOKES") c)
        else pure h1
      | _ => none
    else pure h1

/-- Fold of axisStep over the six keyword bases. -/
def axisFold (idx dim cnt : ℕ) : List String → Header → Option Header
  | [], h => some h
  | k :: ks, h => do axisFold idx dim cnt ks (← axisStep idx dim cnt h k)

/-- First loop of headersqueeze (lines 79-93 of ndfits.py) over the
reversed array shape, with the running index and the running count of
non-singleton axes. -/
def axesLoop : List ℕ → ℕ → ℕ → Header → Option Header
  | [], _, _, h => some h
  | dim :: rest, idx, cnt, h => do
    let cnt2 := if 1 < dim then cnt + 1 else cnt
    axesLoop rest (idx + 1) cnt2 (← axisFold idx dim cnt2 keys2chng h)

/-- Inner PC loop of headersqueeze (lines 100-110 of ndfits.py): for row
idx1 walk all columns; a present PC card is removed, and re-added under
the compacted pair when both axes are non-singleton. -/
def pcInner (idx1 dim1 cnt1 : ℕ) : List ℕ → ℕ → ℕ → Header → Header
  | [], _, _, h => h
  | dim2 :: rest, idx2, cnt2, h =>
    let cnt2b := if 1 < dim2 then cnt2 + 1 else cnt2
    let h2 :=
      match hlookup h (pcKey (idx1 + 1) (idx2 + 1)) with
      | none => h
      | some v =>
        let h1 := hremove h (pcKey (idx1 + 1) (idx2 + 1))
        if 1 < dim1 ∧ 1 < dim2 then hset h1 (pcKey cnt1 cnt2b) v else h1
    pcInner idx1 dim1 cnt1 rest (idx2 + 1) cnt2b h2

/-- Outer PC loop of headersqueeze (lines 95-110 of ndfits.py). -/
def pcOuter (rs : List ℕ) : List ℕ → ℕ → ℕ → Header → Header
  | [], _, _, h => h
  | dim1 :: rest, idx1, cnt1, h =>
    let cnt1b := if 1 < dim1 then cnt1 + 1 else cnt1
    pcOuter rs rest (idx1 + 1) cnt1b (pcInner idx1 dim1 cnt1b rs 0 0 h)

/-- Model of headersqueeze (lines 62-114 of ndfits.py).  When the array
has no singleton axis the pair is returned unchanged; otherwise the axis
keys are renumbered, the PC block is compacted, NAXIS is set to the
number of non-singleton entries and the array is squeezed. -/
def headersqueeze (h : Header) (d : NDArray) : Option (Header × NDArray) :=
  let nsdim := d.shape.count 1
  if nsdim = 0 then some (h, d)
  else do
    let h1 ← axesLoop d.shape.reverse 0 0 h
    let h2 := pcOuter d.shape.reverse d.shape.reverse 0 0 h1
    pure (hset h2 ("NAXIS") (Val.vint (d.ndim - nsdim : ℕ)), d.squeeze)

/-- Dimension of 1-based header axis u: entry u-1 of the reversed shape. -/
def dimAt (rs : List ℕ) (u : ℕ) : ℕ := rs.getD (u - 1) 0

/-- Number of non-singleton axes among the 1-based header axes 1..u. -/
def cntNS (rs : List ℕ) (u : ℕ) : ℕ := ((rs.take u).filter (fun d => 1 < d)).length

/-- One column step of the inner PC loop, with the loop counters expressed
through the reversed shape: probe the PC card of pair (r, q), remove it if
present, and re-add it under the compacted pair when both axes are
non-singleton.  pcInner with coinciding counters performs exactly this
step per column. -/
def pcStep (rs : List ℕ) (r q : ℕ) (g : Header) : Header :=
  match hlookup g (pcKey r q) with
  | none => g
  | some v =>
    let g1 := hremove g (pcKey r q)
    if 1 < dimAt rs r ∧ 1 < dimAt rs q then
      hset g1 (pcKey (cntNS rs r) (cntNS rs q)) v
    else g1

/-- The unique non-singleton 1-based axis whose compacted index is a. -/
def ucFind (rs : List ℕ) (a : ℕ) : Option ℕ :=
  (List.range' 1 rs.length).find?
    (fun u => decide (1 < dimAt rs u) && decide (cntNS rs u = a))

/-- Strict lexicographic order on PC-loop positions: pair (a, b) has been
processed when the next pair is (r, q). -/
def posLex (a b r q : ℕ) : Prop := a < r ∨ (a = r ∧ b < q)

instance posLexDecidable (a b r q : ℕ) : Decidable (posLex a b r q) := by
  unfold posLex
  infer_instance

/-- Value of the in-range PC card (a, b) while the PC loops of
headersqueeze are at position (r, q), relative to the header h1 the loops
started from.  An unprocessed card still holds its original value; a
processed card holds the original value of its unique source pair if that
source has already been processed, and is absent otherwise. -/
def stVal (h1 : Header) (rs : List ℕ) (r q a b : ℕ) : Option Val :=
  if posLex a b r q then
    match ucFind rs a, ucFind rs b with
    | some i, some j => if posLex i j r q then hlookup h1 (pcKey i j) else none
    | _, _ => none
  else hlookup h1 (pcKey a b)

/-- Replacement of NaN elements by the fill value
(data[np.isnan(data)] = filled_value). -/
def nanfill (d : NDArray) (fv : ℚ) : NDArray :=
  { d with elems := d.elems.map (fun e => some (e.getD fv)) }

/-- Result of the write model: the Python return value, the state of the
caller's array and header objects after the call, and whether an output
file was written. -/
structure WriteOut where
  ret : ℤ
  dataOut : NDArray
  headerOut : Header
  wrote : Bool
deriving DecidableEq, Repr

/-- Model of write (lines 260-301 of ndfits.py).  The compression kwargs,
mask argument and path expansion do not affect the array, the header, the
return value or whether a file is created, and are omitted.  On the
refusal path (more than 3 non-singleton dimensions) the function returns
0 before touching anything.  Otherwise NaN values are replaced in place
when fix_invalid is set, the header is squeezed in place, and the file is
written; np.squeeze does not change the shape of the caller's array
object, so the caller's array is the NaN-filled one. -/
def write (d : NDArray) (h : Header) (fix_invalid : Bool) (filled_value : ℚ) :
    Option WriteOut :=
  if ((d.ndim : ℤ) - (d.shape.count 1 : ℤ)) > 3 then
    some ⟨0, d, h, false⟩
  else do
    let d1 := if fix_invalid then nanfill d filled_value else d
    let r ← headersqueeze h d1
    pure ⟨1, d1, r.1, true⟩

/-- State of the axis-classification scan of read (lines 188-200 of
ndfits.py). -/
structure ScanSt where
  freq_axis : Option ℤ
  nfreq : Val
  pol_axis : Option ℤ
  npol : Val
deriving DecidableEq, Repr

/-- Python str of an int. -/
def intStr (z : ℤ) : String := if z < 0 then "-" ++ natStr z.natAbs else natStr z.toNat

/-- Numeric value of a header card as used in numpy arithmetic; a string
value would raise, modelled as none. -/
def valToQ : Val → Option ℚ
  | .vint n => some (n : ℚ)
  | .vnum q => some q
  | .vstr _ => none

/-- Axis scan of read (lines 193-200 of ndfits.py): walk the 0-based axis
indices, classify FREQ and STOKES axes by CTYPE prefix, recording the
numpy axis ndim-(idx+1) and the axis length. -/
def readScan (h : Header) (ndim : ℕ) : List ℕ → ScanSt → Option ScanSt
  | [], st => some st
  | idx :: rest, st =>
    match hlookup h (axKey ("CTYPE") (idx + 1)) with
    | some (.vstr s) => do
      let st1 ←
        if pyStartsWith s ("FREQ") then do
          match hlookup h (axKey ("NAXIS") (idx + 1)) with
          | some nf => pure { st with freq_axis := some ((ndim : ℤ) - (idx + 1)), nfreq := nf }
          | none => none
        else pure st
      let st2 ←
        if pyStartsWith s ("STOKES") then do
          match hlookup h (axKey ("NAXIS") (idx + 1)) with
          | some np2 => pure { st1 with pol_axis := some ((ndim : ℤ) - (idx + 1)), npol := np2 }
          | none => none
        else pure st1
      readScan h ndim rest st2
    | _ => none

/-- Reference-frequency computation of read (lines 201-209 of ndfits.py):
with a frequency axis, CRVAL + CDELT * arange(NAXIS) along that axis (the
NAXIS value must be an integer, as FITS mandates); without one, the
single-element array holding RESTFRQ. -/
def readRefCfreqs (h : Header) (ndim : ℕ) : Option (List ℚ) := do
  let st ← readScan h ndim (List.range ndim) ⟨none, Val.vint 1, none, Val.vint 1⟩
  match st.freq_axis with
  | some fa => do
    let crval ← (hlookup h ("CRVAL" ++ intStr ((ndim : ℤ) - fa))).bind valToQ
    let cdelt ← (hlookup h ("CDELT" ++ intStr ((ndim : ℤ) - fa))).bind valToQ
    match hlookup h ("NAXIS" ++ intStr ((ndim : ℤ) - fa)) with
    | some (.vint naxis) =>
      pure ((List.range naxis.toNat).map (fun t => crval + cdelt * t))
    | _ => none
  | none =>
    match hlookup h ("RESTFRQ") with
    | some v => do
      let r ← valToQ v
      pure [r]
    | none => none

/-- Diagnostic printed by wrap when fewer than two files are given
(line 358 of ndfits.py). -/
def wrapAbortMsg : String := "There is only one files in the fits file list. wrap is aborted!"

/-- Observable result of the wrap entry guard: the returned value, the
printed diagnostics, and the file-system writes performed. -/
structure WrapEntryOut where
  retval : String
  printed : List String
  fsWrites : List String
deriving DecidableEq, Repr

/-- Entry guard of wrap (lines 356-359 of ndfits.py): with at most one
input path, print the diagnostic and return the empty string, performing
no file-system writes.  The multi-file path continues into the band
assembly core, modelled separately by wrapS2; it is not modelled here,
which none records. -/
def wrapEntry (fitsfiles : List String) : Option WrapEntryOut :=
  if fitsfiles.length ≤ 1 then some ⟨"", [wrapAbortMsg], []⟩ else none

/-- Per-file data of the band-merge loop of wrap: the CDELT3 and CRVAL3
header values and the image data (indexed pol, channel, y, x; a 2-D file
uses only the last two indices). -/
structure BandRec where
  cdelt3 : ℚ
  crval3 : ℚ
  datNdim : ℕ
  dat : ℕ → ℕ → ℕ → ℕ → ℚ

/-- Model of numpy diff. -/
def pydiff (l : List ℚ) : List ℚ := l.zipWith (fun a b => b - a) l.tail

/-- Model of numpy nanmean on a NaN-free list (the empty case, NaN in
numpy, is outside the scenarios modelled here). -/
def pymean (l : List ℚ) : ℚ := l.sum / l.length

/-- One band-slot assignment of wrap (lines 466-470 of ndfits.py):
data[pidx, slot] receives the file data for every pidx below npol; a 2-D
source file supplies the same plane to every polarization, otherwise
plane [pidx, 0] is used. -/
def fillBand (npol slot : ℕ) (rec : BandRec) (cube : ℕ → ℕ → ℕ → ℕ → ℚ) :
    ℕ → ℕ → ℕ → ℕ → ℚ :=
  fun p b y x =>
    if p < npol ∧ b = slot then
      (if rec.datNdim = 2 then rec.dat 0 0 y x else rec.dat p 0 y x)
    else cube p b y x

/-- Output of the NAXIS-equals-4 band-assembly core of wrap. -/
structure WrapS2Out where
  cube : ℕ → ℕ → ℕ → ℕ → ℚ
  df : ℚ
  crval3 : ℚ
  cfreqs : List ℚ
  cdelts : List ℚ

/-- Band-assembly core of wrap for the NAXIS-equals-4 branch (lines
459-477 of ndfits.py), starting after the existence filter: files is the
list of (original band position, file record) pairs for the existing
files, crval3hdr is the template header CRVAL3.  The zero-initialized
cube receives each file at its original band position; CDELT3 becomes
nanmean(diff(cfreqs)/diff(positions)); CRVAL3 is shifted back by df times
the first existing position. -/
def wrapS2 (npol : ℕ) (crval3hdr : ℚ) (files : List (ℕ × BandRec)) : WrapS2Out :=
  let cube := files.foldl (fun c sf => fillBand npol sf.1 sf.2 c) (fun _ _ _ _ => (0 : ℚ))
  let cfreqs := files.map (fun sf => sf.2.crval3)
  let cdelts := files.map (fun sf => sf.2.cdelt3)
  let df := pymean (List.zipWith (fun a b => a / b) (pydiff cfreqs)
    (pydiff (files.map (fun sf => (sf.1 : ℚ)))))
  { cube := cube, df := df,
    crval3 := crval3hdr - df * (match files with | [] => 0 | f :: _ => (f.1 : ℚ)),
    cfreqs := cfreqs, cdelts := cdelts }

/-- Canonical zero-padded two-digit transform-matrix keyword shape
claimed by the specification: PC followed by two digits, an underscore
and two digits. -/
def isCanonPC2 (k : String) : Bool :=
  match k.data with
  | ['P', 'C', a, b, '_', c, d] => a.isDigit && b.isDigit && c.isDigit && d.isDigit
  | _ => false

/-- Decidable statement that the CTYPE card of 1-based axis i holds a
string value prefixed STOKES. -/
def stokesAt (h : Header) (i : ℕ) : Bool :=
  match hlookup h (axKey ("CTYPE") i) with
  | some (.vstr s) => pyStartsWith s ("STOKES")
  | _ => false

/-- Decidable statement that a header carries no frequency axis at 0-based
axis index idx: its CTYPE card, if a string, is not prefixed FREQ. -/
def noFreqAt (h : Header) (idx : ℕ) : Bool :=
  match hlookup h (axKey ("CTYPE") (idx + 1)) with
  | some (.vstr s) => !(pyStartsWith s ("FREQ"))
  | _ => true

-- Basic facts about natDigits, transferred from Mathlib's Nat.digits.

theorem natDigitsAux_eq (fuel n : ℕ) (h : n ≤ fuel) :
    natDigitsAux fuel n = Nat.digits 10 n := by
  induction fuel generalizing n with
  | zero =>
    interval_cases n
    simp [natDigitsAux]
  | succ f ih =>
    by_cases hn : n = 0
    · simp [natDigitsAux, hn]
    · rw [natDigitsAux, if_neg hn, ih (n / 10) ?_,
        Nat.digits_def' (by norm_num : 1 < 10) (Nat.pos_of_ne_zero hn)]
      have := Nat.div_lt_self (Nat.pos_of_ne_zero hn) (by norm_num : 1 < 10)
      omega

theorem natDigits_eq (n : ℕ) : natDigits n = Nat.digits 10 n :=
  natDigitsAux_eq n n le_rfl

theorem natDigits_ne_nil (n : ℕ) (h : n ≠ 0) : natDigits n ≠ [] := by
  rw [natDigits_eq]; exact Nat.digits_ne_nil_iff_ne_zero.mpr h

theorem natDigits_lt (n d : ℕ) (hd : d ∈ natDigits n) : d < 10 := by
  rw [natDigits_eq] at hd; exact Nat.digits_lt_base (by norm_num) hd

theorem digitChar_inj (d1 d2 : ℕ) (h1 : d1 < 10) (h2 : d2 < 10)
    (he : digitChar d1 = digitChar d2) : d1 = d2 := by
  interval_cases d1 <;> interval_cases d2 <;> first | rfl | exact absurd he (by decide)

theorem digitChar_ne_underscore (d : ℕ) (h : d < 10) : digitChar d ≠ '_' := by
  interval_cases d <;> decide

theorem digitChar_eq_zeroChar (d : ℕ) (h : d < 10) (he : digitChar d = '0') : d = 0 := by
  interval_cases d <;> first | rfl | exact absurd he (by decide)

theorem strExt (s t : String) (h : s.data = t.data) : s = t := by
  cases s; cases t; simp_all

theorem map_digitChar_inj (l1 : List ℕ) : ∀ l2 : List ℕ, (∀ d ∈ l1, d < 10) →
    (∀ d ∈ l2, d < 10) → l1.map digitChar = l2.map digitChar → l1 = l2 := by
  induction l1 with
  | nil => intro l2 _ _ he; cases l2 <;> simp_all
  | cons a t ih =>
    intro l2 h1 h2 he
    cases l2 with
    | nil => simp_all
    | cons b t2 =>
      simp only [List.map_cons, List.cons.injEq] at he
      have ha : a = b := digitChar_inj a b (h1 a (by simp)) (h2 b (by simp)) he.1
      have ht : t = t2 := ih t2 (fun d hd => h1 d (by simp [hd]))
        (fun d hd => h2 d (by simp [hd])) he.2
      simp [ha, ht]

theorem natDigits_single_ne_zero (n d : ℕ) (hn : n ≠ 0) (hd : natDigits n = [d]) : d ≠ 0 := by
  have hd2 : Nat.digits 10 n = [d] := by rw [← natDigits_eq]; exact hd
  have h5 := Nat.getLast_digit_ne_zero 10 hn
  revert h5
  simp [hd2]

theorem natDigits_getLast?_ne_zero (n : ℕ) (hn : n ≠ 0) (d : ℕ)
    (hd : (natDigits n).getLast? = some d) : d ≠ 0 := by
  rw [natDigits_eq] at hd
  have h5 := Nat.getLast_digit_ne_zero 10 hn
  have hne : Nat.digits 10 n ≠ [] := Nat.digits_ne_nil_iff_ne_zero.mpr hn
  rw [List.getLast?_eq_getLast _ hne] at hd
  have := Option.some.inj hd
  omega

theorem underscore_not_mem_natStr (n : ℕ) : '_' ∉ (natStr n).data := by
  unfold natStr
  by_cases h : n = 0
  · subst h; decide
  · simp only [h, if_neg, ite_false]
    intro hmem
    rw [List.mem_reverse, List.mem_map] at hmem
    obtain ⟨d, hd, hdd⟩ := hmem
    exact digitChar_ne_underscore d (natDigits_lt n d hd) hdd

theorem natStr_injective (m n : ℕ) (he : natStr m = natStr n) : m = n := by
  have hdata : (natStr m).data = (natStr n).data := by rw [he]
  unfold natStr at hdata
  by_cases hm : m = 0 <;> by_cases hn : n = 0
  · omega
  · exfalso
    simp only [hm, hn, if_pos, if_neg, ite_false, ite_true] at hdata
    have h1 : (natDigits n).map digitChar = ['0'] := by
      have := congrArg List.reverse hdata.symm
      simpa using this
    obtain ⟨d, hd, hd0⟩ : ∃ d, natDigits n = [d] ∧ digitChar d = '0' := by
      cases hnd : natDigits n with
      | nil => rw [hnd] at h1; simp at h1
      | cons a t =>
        rw [hnd] at h1
        cases t with
        | nil => exact ⟨a, rfl, by simpa using h1⟩
        | cons b t2 => simp at h1
    exact natDigits_single_ne_zero n d hn hd
      (digitChar_eq_zeroChar d (natDigits_lt n d (by simp [hd])) hd0)
  · exfalso
    simp only [hm, hn, if_pos, if_neg, ite_false, ite_true] at hdata
    have h1 : (natDigits m).map digitChar = ['0'] := by
      have := congrArg List.reverse hdata
      simpa using this
    obtain ⟨d, hd, hd0⟩ : ∃ d, natDigits m = [d] ∧ digitChar d = '0' := by
      cases hnd : natDigits m with
      | nil => rw [hnd] at h1; simp at h1
      | cons a t =>
        rw [hnd] at h1
        cases t with
        | nil => exact ⟨a, rfl, by simpa using h1⟩
        | cons b t2 => simp at h1
    exact natDigits_single_ne_zero m d hm hd
      (digitChar_eq_zeroChar d (natDigits_lt m d (by simp [hd])) hd0)
  · simp only [hm, hn, if_neg, ite_false] at hdata
    have h1 : (natDigits m).map digitChar = (natDigits n).map digitChar := by
      have := congrArg List.reverse hdata
      simpa using this
    have h2 : natDigits m = natDigits n :=
      map_digitChar_inj _ _ (fun d hd => natDigits_lt m d hd)
        (fun d hd => natDigits_lt n d hd) h1
    rw [natDigits_eq, natDigits_eq] at h2
    have h3 := congrArg (Nat.ofDigits 10) h2
    rw [Nat.ofDigits_digits, Nat.ofDigits_digits] at h3
    exact_mod_cast h3

theorem natStr_data_of_lt_ten (i : ℕ) (h : i < 10) : (natStr i).data = [digitChar i] := by
  interval_cases i <;> decide

theorem natStr_data_ne_nil (n : ℕ) : (natStr n).data ≠ [] := by
  unfold natStr
  by_cases h : n = 0
  · subst h; decide
  · simp only [h, if_neg, ite_false]
    simp only [ne_eq, List.reverse_eq_nil_iff, List.map_eq_nil_iff]
    exact natDigits_ne_nil n h

theorem natStr_head_ne_zero (n : ℕ) (h : 10 ≤ n) : (natStr n).data.head? ≠ some '0' := by
  have hn : n ≠ 0 := by omega
  unfold natStr
  simp only [hn, if_neg, ite_false]
  rw [List.head?_reverse, List.getLast?_map]
  cases hgl : (natDigits n).getLast? with
  | none => simp
  | some d =>
    simp only [Option.map_some']
    intro hc
    have hd0 : digitChar d = '0' := Option.some.inj hc
    have hmem : d ∈ natDigits n := by
      obtain ⟨hne, hx⟩ := List.mem_getLast?_eq_getLast (l := natDigits n) (x := d)
        (by rw [Option.mem_def]; exact hgl)
      rw [hx]
      exact List.getLast_mem hne
    exact natDigits_getLast?_ne_zero n hn d hgl
      (digitChar_eq_zeroChar d (natDigits_lt n d hmem) hd0)

theorem underscore_not_mem_pad2 (n : ℕ) : '_' ∉ (pad2 n).data := by
  unfold pad2
  by_cases h : n < 10
  · simp only [h, if_pos, ite_true, String.data_append]
    intro hm
    rcases List.mem_append.mp hm with hm | hm
    · revert hm; decide
    · exact underscore_not_mem_natStr n hm
  · simp only [h, if_neg, ite_false]
    exact underscore_not_mem_natStr n

theorem pad2_head_of_lt_ten (n : ℕ) (h : n < 10) : (pad2 n).data.head? = some '0' := by
  unfold pad2
  simp only [h, if_pos, ite_true, String.data_append]
  rfl

theorem pad2_inj (m n : ℕ) (he : pad2 m = pad2 n) : m = n := by
  have hdata : (pad2 m).data = (pad2 n).data := by rw [he]
  by_cases hm : m < 10 <;> by_cases hn : n < 10
  · unfold pad2 at hdata
    simp only [hm, hn, if_pos, ite_true, String.data_append] at hdata
    rw [natStr_data_of_lt_ten m hm, natStr_data_of_lt_ten n hn] at hdata
    simp at hdata
    exact digitChar_inj m n (by omega) (by omega) hdata
  · exfalso
    have h1 : (pad2 m).data.head? = some '0' := pad2_head_of_lt_ten m hm
    have h2 : (pad2 n).data.head? ≠ some '0' := by
      unfold pad2
      simp only [hn, if_neg, ite_false]
      exact natStr_head_ne_zero n (by omega)
    rw [hdata] at h1
    exact h2 h1
  · exfalso
    have h1 : (pad2 n).data.head? = some '0' := pad2_head_of_lt_ten n hn
    have h2 : (pad2 m).data.head? ≠ some '0' := by
      unfold pad2
      simp only [hm, if_neg, ite_false]
      exact natStr_head_ne_zero m (by omega)
    rw [← hdata] at h1
    exact h2 h1
  · unfold pad2 at he
    simp only [hm, hn, if_neg, ite_false] at he
    exact natStr_injective m n he

theorem append_underscore_inj : ∀ (a1 a2 b1 b2 : List Char), '_' ∉ a1 → '_' ∉ a2 →
    a1 ++ '_' :: b1 = a2 ++ '_' :: b2 → a1 = a2 ∧ b1 = b2 := by
  intro a1
  induction a1 with
  | nil =>
    intro a2 b1 b2 _ h2 he
    cases a2 with
    | nil => simpa using he
    | cons c t =>
      exfalso
      simp only [List.nil_append, List.cons_append, List.cons.injEq] at he
      exact h2 (by rw [← he.1]; simp)
  | cons c t ih =>
    intro a2 b1 b2 h1 h2 he
    cases a2 with
    | nil =>
      exfalso
      simp only [List.nil_append, List.cons_append, List.cons.injEq] at he
      exact h1 (by rw [he.1]; simp)
    | cons c2 t2 =>
      simp only [List.cons_append, List.cons.injEq] at he
      obtain ⟨hc, ht⟩ := he
      have := ih t2 b1 b2 (fun hm => h1 (by simp [hm])) (fun hm => h2 (by simp [hm])) ht
      exact ⟨by simp [hc, this.1], this.2⟩

theorem pcKey_data (i j : ℕ) :
    (pcKey i j).data = 'P' :: 'C' :: ((pad2 i).data ++ '_' :: (natStr j).data) := by
  simp [pcKey, String.data_append]

theorem pcKey_inj (i j a b : ℕ) (he : pcKey i j = pcKey a b) : i = a ∧ j = b := by
  have hdata : (pcKey i j).data = (pcKey a b).data := by rw [he]
  rw [pcKey_data, pcKey_data] at hdata
  simp only [List.cons.injEq, true_and] at hdata
  obtain ⟨hp, hns⟩ := append_underscore_inj _ _ _ _
    (underscore_not_mem_pad2 i) (underscore_not_mem_pad2 a) hdata
  exact ⟨pad2_inj i a (strExt _ _ hp), natStr_injective j b (strExt _ _ hns)⟩

theorem pcKey_head (i j : ℕ) : (pcKey i j).data.head? = some 'P' := by
  rw [pcKey_data]
  rfl

theorem ne_pcKey_of_head (s : String) (hs : s.data.head? ≠ some 'P') (a b : ℕ) :
    s ≠ pcKey a b := by
  intro he
  rw [he, pcKey_head] at hs
  exact hs rfl

theorem axKey_head (base : String) (hb : base.data ≠ []) (i : ℕ) :
    (axKey base i).data.head? = base.data.head? := by
  rw [axKey, String.data_append]
  exact List.head?_append_of_ne_nil _ hb

-- Lemmas about the header operations.

theorem hlookup_hset_self (h : Header) (k : String) (v : Val) :
    hlookup (hset h k v) k = some v := by
  induction h with
  | nil => simp [hset, hlookup]
  | cons p t ih =>
    obtain ⟨k1, v1⟩ := p
    by_cases hk : k1 = k
    · simp [hset, hlookup, hk]
    · simp [hset, hlookup, hk, ih]

theorem hlookup_hset_ne (h : Header) (k : String) (v : Val) (k2 : String)
    (hne : k ≠ k2) : hlookup (hset h k v) k2 = hlookup h k2 := by
  induction h with
  | nil => simp [hset, hlookup, hne]
  | cons p t ih =>
    obtain ⟨k1, v1⟩ := p
    by_cases hk : k1 = k
    · subst hk
      simp only [hset, if_pos, ite_true]
      simp [hlookup, hne]
    · simp only [hset, hk, if_neg, ite_false]
      by_cases hk2 : k1 = k2 <;> simp [hlookup, hk2, ih]

theorem hlookup_hremove_ne (h : Header) (k k2 : String) (hne : k ≠ k2) :
    hlookup (hremove h k) k2 = hlookup h k2 := by
  induction h with
  | nil => simp [hremove]
  | cons p t ih =>
    obtain ⟨k1, v1⟩ := p
    by_cases hk : k1 = k
    · subst hk
      simp only [hremove, if_pos, ite_true]
      simp [hlookup, hne]
    · simp only [hremove, hk, if_neg, ite_false]
      by_cases hk2 : k1 = k2 <;> simp [hlookup, hk2, ih]

theorem hlookup_eq_none_of_not_mem (h : Header) (k : String) (hk : k ∉ hkeys h) :
    hlookup h k = none := by
  induction h with
  | nil => rfl
  | cons p t ih =>
    obtain ⟨k1, v1⟩ := p
    simp only [hkeys, List.map_cons, List.mem_cons, not_or] at hk
    have h1 : k1 ≠ k := fun he => hk.1 he.symm
    simp only [hlookup, h1, if_neg, ite_false]
    exact ih (by simpa [hkeys] using hk.2)

theorem hlookup_hremove_self (h : Header) (k : String) (hnd : (hkeys h).Nodup) :
    hlookup (hremove h k) k = none := by
  induction h with
  | nil => rfl
  | cons p t ih =>
    obtain ⟨k1, v1⟩ := p
    simp only [hkeys, List.map_cons, List.nodup_cons] at hnd
    by_cases hk : k1 = k
    · simp only [hremove, hk, if_pos, ite_true]
      exact hlookup_eq_none_of_not_mem t k (by rw [← hk]; exact hnd.1)
    · simp only [hremove, hlookup, hk, if_neg, ite_false]
      exact ih hnd.2

theorem hkeys_hremove_sublist (h : Header) (k : String) :
    (hkeys (hremove h k)).Sublist (hkeys h) := by
  induction h with
  | nil => simp [hremove]
  | cons p t ih =>
    obtain ⟨k1, v1⟩ := p
    by_cases hk : k1 = k
    · simp only [hremove, hk, if_pos, ite_true, hkeys, List.map_cons]
      exact List.sublist_cons_self _ _
    · simp only [hremove, hk, if_neg, ite_false, hkeys, List.map_cons]
      exact List.Sublist.cons₂ _ ih

theorem hkeys_nodup_hremove (h : Header) (k : String) (hnd : (hkeys h).Nodup) :
    (hkeys (hremove h k)).Nodup :=
  (hkeys_hremove_sublist h k).nodup hnd

theorem hkeys_hset (h : Header) (k : String) (v : Val) :
    hkeys (hset h k v) = if k ∈ hkeys h then hkeys h else hkeys h ++ [k] := by
  induction h with
  | nil => simp [hset, hkeys]
  | cons p t ih =>
    obtain ⟨k1, v1⟩ := p
    by_cases hk : k1 = k
    · subst hk
      simp [hset, hkeys]
    · have h2 : ¬ k = k1 := fun he => hk he.symm
      simp only [hset, hk, if_neg, ite_false, hkeys, List.map_cons]
      simp only [hkeys] at ih
      rw [ih]
      by_cases hmem : k ∈ List.map Prod.fst t
      · simp [hmem, h2]
      · simp [hmem, h2]

theorem hkeys_nodup_hset (h : Header) (k : String) (v : Val)
    (hnd : (hkeys h).Nodup) : (hkeys (hset h k v)).Nodup := by
  rw [hkeys_hset]
  by_cases hmem : k ∈ hkeys h
  · simpa [hmem] using hnd
  · simp only [hmem, if_neg, ite_false]
    simp [List.nodup_append, hnd, hmem]

-- Shape accounting for squeeze.

theorem length_filter_ne_one (l : List ℕ) :
    (l.filter (fun x => x ≠ 1)).length + l.count 1 = l.length := by
  induction l with
  | nil => rfl
  | cons a t ih =>
    by_cases h : a = 1 <;> simp [List.filter_cons, List.count_cons, h] at ih ⊢ <;> omega

/-- C1: for a header/array pair satisfying the header-count part of the
Array invariant, whenever headersqueeze returns, the returned header's
NAXIS equals the returned array's dimensionality, no returned axis has
length 1 (this holds even in the degenerate all-singleton case, where the
array collapses to dimension 0), and when the input array has no
length-1 axis the pair is returned unchanged. -/
theorem C1_headersqueeze_shape (h h2 : Header) (d d2 : NDArray)
    (hinv : hlookup h ("NAXIS") = some (Val.vint (d.ndim : ℤ)))
    (hsq : headersqueeze h d = some (h2, d2)) :
    hlookup h2 ("NAXIS") = some (Val.vint (d2.ndim : ℤ))
    ∧ (∀ a ∈ d2.shape, a ≠ 1)
    ∧ ((∀ a ∈ d.shape, a ≠ 1) → h2 = h ∧ d2 = d) := by
  unfold headersqueeze at hsq
  by_cases hc : d.shape.count 1 = 0
  · simp only [hc, if_pos, ite_true, Option.some.injEq, Prod.mk.injEq] at hsq
    obtain ⟨rfl, rfl⟩ := hsq
    refine ⟨hinv, ?_, fun _ => ⟨rfl, rfl⟩⟩
    intro a ha he
    subst he
    have := List.count_pos_iff.mpr ha
    omega
  · simp only [hc, if_neg, ite_false] at hsq
    cases hax : axesLoop d.shape.reverse 0 0 h with
    | none => rw [hax] at hsq; simp at hsq
    | some h1 =>
      rw [hax] at hsq
      simp only [Option.some_bind, pure, Option.some.injEq, Prod.mk.injEq] at hsq
      obtain ⟨rfl, rfl⟩ := hsq
      have hndim : ((d.ndim - d.shape.count 1 : ℕ) : ℤ) = (d.squeeze.ndim : ℤ) := by
        have := length_filter_ne_one d.shape
        simp only [NDArray.squeeze, NDArray.ndim]
        congr 1
        omega
      refine ⟨?_, ?_, ?_⟩
      · rw [← hndim]
        exact hlookup_hset_self _ _ _
      · intro a ha
        simp only [NDArray.squeeze, List.mem_filter] at ha
        simpa using ha.2
      · intro hall
        exfalso
        apply hc
        rw [List.count_eq_zero]
        intro hmem
        exact hall 1 hmem rfl

/-- Witness for C1 at a concrete 2-axis header with one singleton axis. -/
theorem C1_witness :
    hlookup [("NAXIS", Val.vint 2), ("NAXIS1", Val.vint 2), ("CTYPE1", Val.vstr "RA"),
      ("CRVAL1", Val.vnum 0), ("CDELT1", Val.vnum 1), ("CRPIX1", Val.vnum 1),
      ("CUNIT1", Val.vstr "deg"), ("NAXIS2", Val.vint 1), ("CTYPE2", Val.vstr "STOKES"),
      ("CRVAL2", Val.vnum (-5)), ("CDELT2", Val.vnum 1), ("CRPIX2", Val.vnum 1),
      ("CUNIT2", Val.vstr "")] ("NAXIS")
        = some (Val.vint ((NDArray.mk [1, 2] [some 1, some 2]).ndim : ℤ))
    ∧ (hlookup [("NAXIS", Val.vint 1), ("NAXIS1", Val.vint 2), ("CTYPE1", Val.vstr "RA"),
        ("CRVAL1", Val.vnum 0), ("CDELT1", Val.vnum 1), ("CRPIX1", Val.vnum 1),
        ("CUNIT1", Val.vstr "deg"), ("STOKES", Val.vnum (-5))] ("NAXIS")
          = some (Val.vint ((NDArray.mk [2] [some 1, some 2]).ndim : ℤ))
      ∧ (∀ a ∈ (NDArray.mk [2] [some 1, some 2]).shape, a ≠ 1)
      ∧ ((∀ a ∈ (NDArray.mk [1, 2] [some 1, some 2]).shape, a ≠ 1) →
          [("NAXIS", Val.vint 1), ("NAXIS1", Val.vint 2), ("CTYPE1", Val.vstr "RA"),
            ("CRVAL1", Val.vnum 0), ("CDELT1", Val.vnum 1), ("CRPIX1", Val.vnum 1),
            ("CUNIT1", Val.vstr "deg"), ("STOKES", Val.vnum (-5))]
            = [("NAXIS", Val.vint 2), ("NAXIS1", Val.vint 2), ("CTYPE1", Val.vstr "RA"),
              ("CRVAL1", Val.vnum 0), ("CDELT1", Val.vnum 1), ("CRPIX1", Val.vnum 1),
              ("CUNIT1", Val.vstr "deg"), ("NAXIS2", Val.vint 1), ("CTYPE2", Val.vstr "STOKES"),
              ("CRVAL2", Val.vnum (-5)), ("CDELT2", Val.vnum 1), ("CRPIX2", Val.vnum 1),
              ("CUNIT2", Val.vstr "")]
          ∧ NDArray.mk [2] [some 1, some 2] = NDArray.mk [1, 2] [some 1, some 2])) :=
  ⟨by decide,
   C1_headersqueeze_shape _ _ _ _ (by decide) (by decide)⟩

/-- C7: write refuses an array whose dimensionality minus its count of
length-1 entries exceeds 3, returning the failure code 0 (no exception)
with the caller's array and header untouched and no output file created. -/
theorem C7_write_refuses_4d (d : NDArray) (h : Header) (fi : Bool) (fv : ℚ)
    (hdim : ((d.ndim : ℤ) - (d.shape.count 1 : ℤ)) > 3) :
    write d h fi fv = some ⟨0, d, h, false⟩ := by
  unfold write
  simp [hdim]

/-- Witness for C7 at a 4x4x4x4 array. -/
theorem C7_witness :
    ((((NDArray.mk [4, 4, 4, 4] (List.replicate 256 (some 0))).ndim : ℤ)
      - (((NDArray.mk [4, 4, 4, 4] (List.replicate 256 (some 0))).shape.count 1 : ℤ))) > 3)
    ∧ write (NDArray.mk [4, 4, 4, 4] (List.replicate 256 (some 0))) [] true 0
        = some ⟨0, NDArray.mk [4, 4, 4, 4] (List.replicate 256 (some 0)), [], false⟩ :=
  ⟨by decide, C7_write_refuses_4d _ _ _ _ (by decide)⟩

/-- C10: frame behavior of write with fix_invalid set.  On the refusal
path the caller's array and header are returned completely unchanged with
result 0 and no file written; on the proceed path the caller's array is
the NaN-filled one, the caller's header is the one mutated by
headersqueeze applied to the NaN-filled data, the result is 1 and the
file is written. -/
theorem C10_write_frame (d : NDArray) (h : Header) (fv : ℚ) (r : WriteOut)
    (hw : write d h true fv = some r) :
    if ((d.ndim : ℤ) - (d.shape.count 1 : ℤ)) > 3 then r = ⟨0, d, h, false⟩
    else r.ret = 1 ∧ r.wrote = true ∧ r.dataOut = nanfill d fv
      ∧ ∃ d2, headersqueeze h (nanfill d fv) = some (r.headerOut, d2) := by
  unfold write at hw
  by_cases hdim : ((d.ndim : ℤ) - (d.shape.count 1 : ℤ)) > 3
  · simp only [hdim, if_pos, ite_true] at hw ⊢
    exact (Option.some.inj hw).symm
  · simp only [hdim, if_neg, ite_false, if_true, ite_true] at hw ⊢
    cases hsq : headersqueeze h (nanfill d fv) with
    | none => rw [hsq] at hw; simp at hw
    | some p =>
      rw [hsq] at hw
      simp only [Option.bind_eq_bind, Option.some_bind, Option.pure_def,
        Option.some.injEq] at hw
      subst hw
      exact ⟨rfl, rfl, rfl, p.2, rfl⟩

/-- Witness for C10 at a concrete array with a NaN entry and a squeezable
singleton axis. -/
theorem C10_witness :
    if (((NDArray.mk [1, 2] [none, some 2]).ndim : ℤ)
        - (((NDArray.mk [1, 2] [none, some 2]).shape.count 1 : ℤ))) > 3
    then (WriteOut.mk 1 (NDArray.mk [1, 2] [some 0, some 2])
        [("NAXIS", Val.vint 1), ("NAXIS1", Val.vint 2), ("CTYPE1", Val.vstr "RA"),
         ("CRVAL1", Val.vnum 0), ("CDELT1", Val.vnum 1), ("CRPIX1", Val.vnum 1),
         ("CUNIT1", Val.vstr "deg"), ("STOKES", Val.vnum (-5))] true)
      = ⟨0, NDArray.mk [1, 2] [none, some 2],
          [("NAXIS", Val.vint 2), ("NAXIS1", Val.vint 2), ("CTYPE1", Val.vstr "RA"),
           ("CRVAL1", Val.vnum 0), ("CDELT1", Val.vnum 1), ("CRPIX1", Val.vnum 1),
           ("CUNIT1", Val.vstr "deg"), ("NAXIS2", Val.vint 1), ("CTYPE2", Val.vstr "STOKES"),
           ("CRVAL2", Val.vnum (-5)), ("CDELT2", Val.vnum 1), ("CRPIX2", Val.vnum 1),
           ("CUNIT2", Val.vstr "")], false⟩
    else (WriteOut.mk 1 (NDArray.mk [1, 2] [some 0, some 2])
        [("NAXIS", Val.vint 1), ("NAXIS1", Val.vint 2), ("CTYPE1", Val.vstr "RA"),
         ("CRVAL1", Val.vnum 0), ("CDELT1", Val.vnum 1), ("CRPIX1", Val.vnum 1),
         ("CUNIT1", Val.vstr "deg"), ("STOKES", Val.vnum (-5))] true).ret = 1
      ∧ (WriteOut.mk 1 (NDArray.mk [1, 2] [some 0, some 2])
          [("NAXIS", Val.vint 1), ("NAXIS1", Val.vint 2), ("CTYPE1", Val.vstr "RA"),
           ("CRVAL1", Val.vnum 0), ("CDELT1", Val.vnum 1), ("CRPIX1", Val.vnum 1),
           ("CUNIT1", Val.vstr "deg"), ("STOKES", Val.vnum (-5))] true).wrote = true
      ∧ (WriteOut.mk 1 (NDArray.mk [1, 2] [some 0, some 2])
          [("NAXIS", Val.vint 1), ("NAXIS1", Val.vint 2), ("CTYPE1", Val.vstr "RA"),
           ("CRVAL1", Val.vnum 0), ("CDELT1", Val.vnum 1), ("CRPIX1", Val.vnum 1),
           ("CUNIT1", Val.vstr "deg"), ("STOKES", Val.vnum (-5))] true).dataOut
          = nanfill (NDArray.mk [1, 2] [none, some 2]) 0
      ∧ ∃ d2, headersqueeze
          [("NAXIS", Val.vint 2), ("NAXIS1", Val.vint 2), ("CTYPE1", Val.vstr "RA"),
           ("CRVAL1", Val.vnum 0), ("CDELT1", Val.vnum 1), ("CRPIX1", Val.vnum 1),
           ("CUNIT1", Val.vstr "deg"), ("NAXIS2", Val.vint 1), ("CTYPE2", Val.vstr "STOKES"),
           ("CRVAL2", Val.vnum (-5)), ("CDELT2", Val.vnum 1), ("CRPIX2", Val.vnum 1),
           ("CUNIT2", Val.vstr "")] (nanfill (NDArray.mk [1, 2] [none, some 2]) 0)
          = some ((WriteOut.mk 1 (NDArray.mk [1, 2] [some 0, some 2])
              [("NAXIS", Val.vint 1), ("NAXIS1", Val.vint 2), ("CTYPE1", Val.vstr "RA"),
               ("CRVAL1", Val.vnum 0), ("CDELT1", Val.vnum 1), ("CRPIX1", Val.vnum 1),
               ("CUNIT1", Val.vstr "deg"), ("STOKES", Val.vnum (-5))] true).headerOut, d2) :=
  C10_write_frame
    (NDArray.mk [1, 2] [none, some 2])
    [("NAXIS", Val.vint 2), ("NAXIS1", Val.vint 2), ("CTYPE1", Val.vstr "RA"),
     ("CRVAL1", Val.vnum 0), ("CDELT1", Val.vnum 1), ("CRPIX1", Val.vnum 1),
     ("CUNIT1", Val.vstr "deg"), ("NAXIS2", Val.vint 1), ("CTYPE2", Val.vstr "STOKES"),
     ("CRVAL2", Val.vnum (-5)), ("CDELT2", Val.vnum 1), ("CRPIX2", Val.vnum 1),
     ("CUNIT2", Val.vstr "")] 0 _ (by decide)

/-- C8: with at most one input path wrap returns the empty string after
printing its diagnostic, raising no exception and performing no
file-system writes. -/
theorem C8_wrap_single_file (files : List String) (hlen : files.length ≤ 1) :
    wrapEntry files = some ⟨"", [wrapAbortMsg], []⟩ := by
  unfold wrapEntry
  simp [hlen]

/-- Witness for C8 at a one-element file list. -/
theorem C8_witness :
    ["one.fits"].length ≤ 1
    ∧ wrapEntry ["one.fits"] = some ⟨"", [wrapAbortMsg], []⟩ :=
  ⟨by decide, C8_wrap_single_file _ (by decide)⟩

/-- C2: band-merge gap scenario.  With 4 expected band slots and files
existing only at original positions 0, 2 and 3 carrying center
frequencies 1, 3 and 4 GHz, the computed uniform spacing CDELT3 equals
the frequency span divided by the span of original band positions,
(4-1)/(3-0) GHz = 1 GHz, and the assembled cube holds each file at its
original band slot while slot 1 stays all-zero. -/
theorem C2_wrap_gap_scenario (f0 f1 f2 : ℕ → ℕ → ℕ → ℕ → ℚ) (c0 c1 c2 : ℚ) :
    (wrapS2 1 1000000000 [(0, ⟨c0, 1000000000, 2, f0⟩), (2, ⟨c1, 3000000000, 2, f1⟩),
        (3, ⟨c2, 4000000000, 2, f2⟩)]).df
      = (4000000000 - 1000000000) / ((3 : ℚ) - 0)
    ∧ (wrapS2 1 1000000000 [(0, ⟨c0, 1000000000, 2, f0⟩), (2, ⟨c1, 3000000000, 2, f1⟩),
        (3, ⟨c2, 4000000000, 2, f2⟩)]).df = 1000000000
    ∧ (∀ y x, (wrapS2 1 1000000000 [(0, ⟨c0, 1000000000, 2, f0⟩), (2, ⟨c1, 3000000000, 2, f1⟩),
        (3, ⟨c2, 4000000000, 2, f2⟩)]).cube 0 1 y x = 0)
    ∧ (∀ y x, (wrapS2 1 1000000000 [(0, ⟨c0, 1000000000, 2, f0⟩), (2, ⟨c1, 3000000000, 2, f1⟩),
        (3, ⟨c2, 4000000000, 2, f2⟩)]).cube 0 0 y x = f0 0 0 y x)
    ∧ (∀ y x, (wrapS2 1 1000000000 [(0, ⟨c0, 1000000000, 2, f0⟩), (2, ⟨c1, 3000000000, 2, f1⟩),
        (3, ⟨c2, 4000000000, 2, f2⟩)]).cube 0 2 y x = f1 0 0 y x)
    ∧ (∀ y x, (wrapS2 1 1000000000 [(0, ⟨c0, 1000000000, 2, f0⟩), (2, ⟨c1, 3000000000, 2, f1⟩),
        (3, ⟨c2, 4000000000, 2, f2⟩)]).cube 0 3 y x = f2 0 0 y x) := by
  refine ⟨?_, ?_, ?_, ?_, ?_, ?_⟩
  · simp only [wrapS2, pydiff, pymean, List.map_cons, List.map_nil, List.tail_cons,
      List.zipWith_cons_cons, List.zipWith_nil_right, List.zipWith_nil_left,
      List.sum_cons, List.sum_nil, List.length_cons, List.length_nil]
    norm_num
  · simp only [wrapS2, pydiff, pymean, List.map_cons, List.map_nil, List.tail_cons,
      List.zipWith_cons_cons, List.zipWith_nil_right, List.zipWith_nil_left,
      List.sum_cons, List.sum_nil, List.length_cons, List.length_nil]
    norm_num
  · intro y x
    simp [wrapS2, fillBand]
  · intro y x
    simp [wrapS2, fillBand]
  · intro y x
    simp [wrapS2, fillBand]
  · intro y x
    simp [wrapS2, fillBand]

theorem readScan_freq_none (h : Header) (ndim : ℕ) (idxs : List ℕ) (st st2 : ScanSt)
    (hrun : readScan h ndim idxs st = some st2)
    (hnofreq : ∀ idx ∈ idxs, noFreqAt h idx = true)
    (hst : st.freq_axis = none) : st2.freq_axis = none := by
  induction idxs generalizing st with
  | nil =>
    unfold readScan at hrun
    rw [← Option.some.inj hrun]
    exact hst
  | cons idx rest ih =>
    unfold readScan at hrun
    cases hl : hlookup h (axKey ("CTYPE") (idx + 1)) with
    | none => rw [hl] at hrun; simp at hrun
    | some v =>
      rw [hl] at hrun
      cases v with
      | vint n => simp at hrun
      | vnum q => simp at hrun
      | vstr s =>
        have hfr : pyStartsWith s ("FREQ") = false := by
          have := hnofreq idx (by simp)
          unfold noFreqAt at this
          rw [hl] at this
          simpa using this
        simp only [hfr, Bool.false_eq_true, if_neg, ite_false] at hrun
        by_cases hso : pyStartsWith s ("STOKES") = true
        · simp only [hso, if_pos, ite_true] at hrun
          cases hnx : hlookup h (axKey ("NAXIS") (idx + 1)) with
          | none => rw [hnx] at hrun; simp at hrun
          | some nv =>
            rw [hnx] at hrun
            simp only [Option.bind_eq_bind, Option.some_bind] at hrun
            exact ih _ hrun (fun i hi => hnofreq i (by simp [hi])) hst
        · simp only [hso, if_neg, ite_false] at hrun
          simp only [Option.bind_eq_bind, Option.some_bind] at hrun
          exact ih _ hrun (fun i hi => hnofreq i (by simp [hi])) hst

/-- C6: for a container record with no frequency axis (no CTYPE prefixed
FREQ) and RESTFRQ equal to 1.2e9 Hz, the reference-frequency array built
by read is the single-element array holding RESTFRQ, 1.2e9 Hz, which in
GHz is the single value 1.2. -/
theorem C6_read_restfrq_fallback (h : Header) (ndim : ℕ) (out : List ℚ)
    (hnofreq : ∀ idx, idx < ndim → noFreqAt h idx = true)
    (hrest : hlookup h ("RESTFRQ") = some (Val.vnum 1200000000))
    (hrun : readRefCfreqs h ndim = some out) :
    out = [1200000000] ∧ out.map (fun q => q / 1000000000) = [12 / 10] := by
  unfold readRefCfreqs at hrun
  cases hscan : readScan h ndim (List.range ndim) ⟨none, Val.vint 1, none, Val.vint 1⟩ with
  | none => rw [hscan] at hrun; simp at hrun
  | some st =>
    rw [hscan] at hrun
    have hfn : st.freq_axis = none :=
      readScan_freq_none h ndim (List.range ndim) _ st hscan
        (fun idx hidx => hnofreq idx (List.mem_range.mp hidx)) rfl
    simp only [Option.bind_eq_bind, Option.some_bind, hfn] at hrun
    rw [hrest] at hrun
    simp only [valToQ, Option.bind_eq_bind, Option.some_bind, Option.pure_def,
      Option.some.injEq] at hrun
    constructor
    · rw [← hrun]
    · rw [← hrun]
      norm_num

/-- Witness for C6 at a concrete 2-axis header with no frequency axis. -/
theorem C6_witness :
    (∀ idx, idx < 2 → noFreqAt [("NAXIS", Val.vint 2), ("CTYPE1", Val.vstr "RA"),
      ("CTYPE2", Val.vstr "DEC"), ("RESTFRQ", Val.vnum 1200000000)] idx = true)
    ∧ hlookup [("NAXIS", Val.vint 2), ("CTYPE1", Val.vstr "RA"),
        ("CTYPE2", Val.vstr "DEC"), ("RESTFRQ", Val.vnum 1200000000)] ("RESTFRQ")
        = some (Val.vnum 1200000000)
    ∧ ([(1200000000 : ℚ)] = [1200000000]
      ∧ [(1200000000 : ℚ)].map (fun q => q / 1000000000) = [12 / 10]) :=
  ⟨by decide, by decide,
   C6_read_restfrq_fallback
     [("NAXIS", Val.vint 2), ("CTYPE1", Val.vstr "RA"),
      ("CTYPE2", Val.vstr "DEC"), ("RESTFRQ", Val.vnum 1200000000)] 2 [1200000000]
     (by decide) (by decide) (by decide)⟩

theorem hset_append_of_not_mem (h : Header) (k : String) (v : Val)
    (hk : k ∉ hkeys h) : hset h k v = h ++ [(k, v)] := by
  induction h with
  | nil => rfl
  | cons p t ih =>
    obtain ⟨k1, v1⟩ := p
    simp only [hkeys, List.map_cons, List.mem_cons, not_or] at hk
    have h1 : k1 ≠ k := fun he => hk.1 he.symm
    simp only [hset, h1, if_neg, ite_false, List.cons_append, List.cons.injEq, true_and]
    exact ih (by simpa [hkeys] using hk.2)

theorem hpAxisLoop_append (h : Header) (l1 l2 : List ℕ) (a0 : Option ℕ) :
    hpAxisLoop h (l1 ++ l2) a0
      = (hpAxisLoop h l1 a0).bind (fun a1 => hpAxisLoop h l2 a1) := by
  induction l1 generalizing a0 with
  | nil => simp [hpAxisLoop]
  | cons d rest ih =>
    simp only [List.cons_append, hpAxisLoop]
    cases hlookup h (axKey ("CTYPE") d) with
    | none => simp
    | some v =>
      cases v with
      | vint n => simp
      | vnum q => simp
      | vstr s => exact ih _

theorem hpAxisLoop_range_spec (h : Header) (nd : ℕ) (ax : Option ℕ)
    (hrun : hpAxisLoop h ((List.range nd).map (· + 1)) none = some ax) :
    (ax = none → ∀ i, 1 ≤ i → i ≤ nd → stokesAt h i = false)
    ∧ (∀ m, ax = some m → 1 ≤ m ∧ m ≤ nd ∧ stokesAt h m = true
        ∧ ∀ i, m < i → i ≤ nd → stokesAt h i = false) := by
  induction nd generalizing ax with
  | zero =>
    simp only [List.range_zero, List.map_nil, hpAxisLoop, Option.some.injEq] at hrun
    subst hrun
    exact ⟨fun _ i h1 h2 => by omega, fun m hm => by simp at hm⟩
  | succ nd ih =>
    rw [List.range_succ, List.map_append, hpAxisLoop_append] at hrun
    cases h1 : hpAxisLoop h ((List.range nd).map (· + 1)) none with
    | none => rw [h1] at hrun; simp at hrun
    | some a1 =>
      rw [h1] at hrun
      simp only [Option.some_bind, List.map_cons, List.map_nil, hpAxisLoop] at hrun
      cases hl : hlookup h (axKey ("CTYPE") (nd + 1)) with
      | none => rw [hl] at hrun; simp at hrun
      | some v =>
        rw [hl] at hrun
        cases v with
        | vint n => simp at hrun
        | vnum q => simp at hrun
        | vstr s =>
          simp only [hpAxisLoop, Option.some.injEq] at hrun
          have hstk : stokesAt h (nd + 1) = pyStartsWith s ("STOKES") := by
            unfold stokesAt
            rw [hl]
          by_cases hso : pyStartsWith s ("STOKES") = true
          · rw [if_pos hso] at hrun
            subst hrun
            refine ⟨fun hc => by simp at hc, fun m hm => ?_⟩
            rw [Option.some.inj hm.symm]
            refine ⟨by omega, le_rfl, by rw [hstk]; exact hso, fun i hi1 hi2 => by omega⟩
          · have hso2 : pyStartsWith s ("STOKES") = false := by
              revert hso
              cases pyStartsWith s ("STOKES") <;> simp
            rw [if_neg (by rw [hso2]; simp)] at hrun
            subst hrun
            obtain ⟨ihn, ihs⟩ := ih a1 h1
            constructor
            · intro hc i hi1 hi2
              rcases Nat.lt_or_ge i (nd + 1) with hlt | hge
              · exact ihn hc i hi1 (by omega)
              · have : i = nd + 1 := by omega
                rw [this, hstk]
                exact hso2
            · intro m hm
              obtain ⟨hm1, hm2, hm3, hm4⟩ := ihs m hm
              refine ⟨hm1, by omega, hm3, fun i hi1 hi2 => ?_⟩
              rcases Nat.lt_or_ge i (nd + 1) with hlt | hge
              · exact hm4 i hi1 (by omega)
              · have : i = nd + 1 := by omega
                rw [this, hstk]
                exact hso2

theorem hpNewLoop_spec (h : Header) (m : ℕ) (hnew : Header)
    (hrun : hpNewLoop h m keys2chng [] = some hnew) :
    ∃ v1 v2 v3 v4 v5 v6,
      hlookup h (axKey ("NAXIS") m) = some v1
      ∧ hlookup h (axKey ("CTYPE") m) = some v2
      ∧ hlookup h (axKey ("CRVAL") m) = some v3
      ∧ hlookup h (axKey ("CDELT") m) = some v4
      ∧ hlookup h (axKey ("CRPIX") m) = some v5
      ∧ hlookup h (axKey ("CUNIT") m) = some v6
      ∧ hnew = [(axKey ("NAXIS") 4, v1), (axKey ("CTYPE") 4, v2), (axKey ("CRVAL") 4, v3),
          (axKey ("CDELT") 4, v4), (axKey ("CRPIX") 4, v5), (axKey ("CUNIT") 4, v6)] := by
  unfold keys2chng at hrun
  unfold hpNewLoop at hrun
  cases e1 : hlookup h (axKey ("NAXIS") m) with
  | none => rw [e1] at hrun; simp at hrun
  | some v1 =>
  rw [e1] at hrun
  dsimp only at hrun
  unfold hpNewLoop at hrun
  cases e2 : hlookup h (axKey ("CTYPE") m) with
  | none => rw [e2] at hrun; simp at hrun
  | some v2 =>
  rw [e2] at hrun
  dsimp only at hrun
  unfold hpNewLoop at hrun
  cases e3 : hlookup h (axKey ("CRVAL") m) with
  | none => rw [e3] at hrun; simp at hrun
  | some v3 =>
  rw [e3] at hrun
  dsimp only at hrun
  unfold hpNewLoop at hrun
  cases e4 : hlookup h (axKey ("CDELT") m) with
  | none => rw [e4] at hrun; simp at hrun
  | some v4 =>
  rw [e4] at hrun
  dsimp only at hrun
  unfold hpNewLoop at hrun
  cases e5 : hlookup h (axKey ("CRPIX") m) with
  | none => rw [e5] at hrun; simp at hrun
  | some v5 =>
  rw [e5] at hrun
  dsimp only at hrun
  unfold hpNewLoop at hrun
  cases e6 : hlookup h (axKey ("CUNIT") m) with
  | none => rw [e6] at hrun; simp at hrun
  | some v6 =>
  rw [e6] at hrun
  dsimp only at hrun
  unfold hpNewLoop at hrun
  refine ⟨v1, v2, v3, v4, v5, v6, rfl, rfl, rfl, rfl, rfl, rfl, ?_⟩
  have d12 : ¬ (axKey ("NAXIS") 4 = axKey ("CTYPE") 4) := by decide
  have d13 : ¬ (axKey ("NAXIS") 4 = axKey ("CRVAL") 4) := by decide
  have d14 : ¬ (axKey ("NAXIS") 4 = axKey ("CDELT") 4) := by decide
  have d15 : ¬ (axKey ("NAXIS") 4 = axKey ("CRPIX") 4) := by decide
  have d16 : ¬ (axKey ("NAXIS") 4 = axKey ("CUNIT") 4) := by decide
  have d23 : ¬ (axKey ("CTYPE") 4 = axKey ("CRVAL") 4) := by decide
  have d24 : ¬ (axKey ("CTYPE") 4 = axKey ("CDELT") 4) := by decide
  have d25 : ¬ (axKey ("CTYPE") 4 = axKey ("CRPIX") 4) := by decide
  have d26 : ¬ (axKey ("CTYPE") 4 = axKey ("CUNIT") 4) := by decide
  have d34 : ¬ (axKey ("CRVAL") 4 = axKey ("CDELT") 4) := by decide
  have d35 : ¬ (axKey ("CRVAL") 4 = axKey ("CRPIX") 4) := by decide
  have d36 : ¬ (axKey ("CRVAL") 4 = axKey ("CUNIT") 4) := by decide
  have d45 : ¬ (axKey ("CDELT") 4 = axKey ("CRPIX") 4) := by decide
  have d46 : ¬ (axKey ("CDELT") 4 = axKey ("CUNIT") 4) := by decide
  have d56 : ¬ (axKey ("CRPIX") 4 = axKey ("CUNIT") 4) := by decide
  simp only [hset, d12, d13, d14, d15, d16, d23, d24, d25, d26, d34, d35, d36, d45, d46,
    d56, if_neg, ite_false, Option.some.injEq] at hrun
  exact hrun.symm

/-- C9: headerparse returns as polarization axis the largest 1-based axis
index within 1..NAXIS whose CTYPE value starts with STOKES, or none when
no axis matches; with a match, headernew holds exactly the six axis keys
renumbered to 4 with that axis's values, and without a match headernew is
empty.  The model, like the source, derives the record purely from
lookups and performs no header mutation. -/
theorem C9_headerparse_spec (h : Header) (nd : ℤ) (res : StokesInfo)
    (hnd : hlookup h ("NAXIS") = some (Val.vint nd))
    (hrun : headerparse h = some res) :
    (res.axis = none →
      (∀ i, 1 ≤ i → i ≤ nd.toNat → stokesAt h i = false) ∧ res.headernew = [])
    ∧ (∀ m, res.axis = some m →
        1 ≤ m ∧ m ≤ nd.toNat ∧ stokesAt h m = true
        ∧ (∀ i, m < i → i ≤ nd.toNat → stokesAt h i = false)
        ∧ ∃ v1 v2 v3 v4 v5 v6,
            hlookup h (axKey ("NAXIS") m) = some v1
            ∧ hlookup h (axKey ("CTYPE") m) = some v2
            ∧ hlookup h (axKey ("CRVAL") m) = some v3
            ∧ hlookup h (axKey ("CDELT") m) = some v4
            ∧ hlookup h (axKey ("CRPIX") m) = some v5
            ∧ hlookup h (axKey ("CUNIT") m) = some v6
            ∧ res.headernew = [(axKey ("NAXIS") 4, v1), (axKey ("CTYPE") 4, v2),
                (axKey ("CRVAL") 4, v3), (axKey ("CDELT") 4, v4),
                (axKey ("CRPIX") 4, v5), (axKey ("CUNIT") 4, v6)]) := by
  unfold headerparse at hrun
  rw [hnd] at hrun
  dsimp only at hrun
  cases hax : hpAxisLoop h ((List.range nd.toNat).map (· + 1)) none with
  | none => rw [hax] at hrun; simp at hrun
  | some ax =>
    rw [hax] at hrun
    simp only [Option.bind_eq_bind, Option.some_bind] at hrun
    cases ax with
    | none =>
      dsimp only at hrun
      simp only [Option.pure_def, Option.some.injEq] at hrun
      subst hrun
      constructor
      · intro _
        exact ⟨(hpAxisLoop_range_spec h nd.toNat none hax).1 rfl, rfl⟩
      · intro m hm
        simp at hm
    | some dim =>
      dsimp only at hrun
      cases hpn : hpNewLoop h dim keys2chng [] with
      | none => rw [hpn] at hrun; simp at hrun
      | some hnew =>
        rw [hpn] at hrun
        simp only [Option.bind_eq_bind, Option.some_bind, Option.pure_def,
          Option.some.injEq] at hrun
        subst hrun
        constructor
        · intro hc
          simp at hc
        · intro m hm
          have hdm : dim = m := by simpa using hm
          subst hdm
          obtain ⟨h1, h2, h3, h4⟩ :=
            (hpAxisLoop_range_spec h nd.toNat (some dim) hax).2 dim rfl
          exact ⟨h1, h2, h3, h4, hpNewLoop_spec h dim hnew hpn⟩

/-- Witness for C9 at a concrete 4-axis header with a STOKES axis at
position 4. -/
theorem C9_witness :
    hlookup [("NAXIS", Val.vint 4), ("CTYPE1", Val.vstr "RA---SIN"),
      ("CTYPE2", Val.vstr "DEC--SIN"), ("CTYPE3", Val.vstr "FREQ"),
      ("CTYPE4", Val.vstr "STOKES"), ("NAXIS4", Val.vint 1), ("CRVAL4", Val.vnum (-5)),
      ("CDELT4", Val.vnum 1), ("CRPIX4", Val.vnum 1), ("CUNIT4", Val.vstr "")] ("NAXIS")
      = some (Val.vint 4)
    ∧ ((StokesInfo.mk (some 4) [("NAXIS4", Val.vint 1), ("CTYPE4", Val.vstr "STOKES"),
        ("CRVAL4", Val.vnum (-5)), ("CDELT4", Val.vnum 1), ("CRPIX4", Val.vnum 1),
        ("CUNIT4", Val.vstr "")]).axis = some 4 →
      1 ≤ 4 ∧ 4 ≤ (4 : ℤ).toNat) :=
  ⟨by decide,
   fun _ =>
     ⟨((C9_headerparse_spec
        [("NAXIS", Val.vint 4), ("CTYPE1", Val.vstr "RA---SIN"),
         ("CTYPE2", Val.vstr "DEC--SIN"), ("CTYPE3", Val.vstr "FREQ"),
         ("CTYPE4", Val.vstr "STOKES"), ("NAXIS4", Val.vint 1), ("CRVAL4", Val.vnum (-5)),
         ("CDELT4", Val.vnum 1), ("CRPIX4", Val.vnum 1), ("CUNIT4", Val.vstr "")] 4
        (StokesInfo.mk (some 4) [("NAXIS4", Val.vint 1), ("CTYPE4", Val.vstr "STOKES"),
         ("CRVAL4", Val.vnum (-5)), ("CDELT4", Val.vnum 1), ("CRPIX4", Val.vnum 1),
         ("CUNIT4", Val.vstr "")])
        (by decide) (by decide)).2 4 rfl).1,
      ((C9_headerparse_spec
        [("NAXIS", Val.vint 4), ("CTYPE1", Val.vstr "RA---SIN"),
         ("CTYPE2", Val.vstr "DEC--SIN"), ("CTYPE3", Val.vstr "FREQ"),
         ("CTYPE4", Val.vstr "STOKES"), ("NAXIS4", Val.vint 1), ("CRVAL4", Val.vnum (-5)),
         ("CDELT4", Val.vnum 1), ("CRPIX4", Val.vnum 1), ("CUNIT4", Val.vstr "")] 4
        (StokesInfo.mk (some 4) [("NAXIS4", Val.vint 1), ("CTYPE4", Val.vstr "STOKES"),
         ("CRVAL4", Val.vnum (-5)), ("CDELT4", Val.vnum 1), ("CRPIX4", Val.vnum 1),
         ("CUNIT4", Val.vstr "")])
        (by decide) (by decide)).2 4 rfl).2.1⟩⟩

-- Lemmas for headerfix.

theorem pyUpper_pc0_starts (s : String) :
    pyStartsWith (pyUpper ("PC0" ++ s)) ("PC0") = true := by
  unfold pyUpper pyStartsWith
  rw [String.data_append]
  have h1 : Char.toUpper 'P' = 'P' := by decide
  have h2 : Char.toUpper 'C' = 'C' := by decide
  have h3 : Char.toUpper '0' = '0' := by decide
  show List.isPrefixOf ['P', 'C', '0']
    (List.map Char.toUpper (['P', 'C', '0'] ++ s.data)) = true
  simp [List.isPrefixOf, h1, h2, h3]

theorem badKey_pc0_append (s : String) : badKey ("PC0" ++ s) = false := by
  unfold badKey
  rw [pyUpper_pc0_starts]
  simp

theorem count_hkeys_hset_ne (h : Header) (k : String) (v : Val) (k2 : String)
    (hne : k2 ≠ k) : (hkeys (hset h k v)).count k2 = (hkeys h).count k2 := by
  rw [hkeys_hset]
  by_cases hmem : k ∈ hkeys h
  · simp [hmem]
  · simp [hmem, List.count_append, List.count_cons, hne]

theorem count_hkeys_hremove_self (h : Header) (k : String) :
    (hkeys (hremove h k)).count k = (hkeys h).count k - 1 := by
  induction h with
  | nil => rfl
  | cons p t ih =>
    obtain ⟨k1, v1⟩ := p
    by_cases hk : k1 = k
    · subst hk
      simp [hremove, hkeys, List.count_cons]
    · simp [hremove, hkeys, hk, List.count_cons, Ne.symm hk] at ih ⊢
      omega

theorem count_hkeys_hremove_ne (h : Header) (k k2 : String) (hne : k2 ≠ k) :
    (hkeys (hremove h k)).count k2 = (hkeys h).count k2 := by
  induction h with
  | nil => rfl
  | cons p t ih =>
    obtain ⟨k1, v1⟩ := p
    by_cases hk : k1 = k
    · subst hk
      simp [hremove, hkeys, List.count_cons, Ne.symm hne]
    · simp only [hremove, hk, if_neg, ite_false, hkeys, List.map_cons, List.count_cons]
      simp only [hkeys] at ih
      rw [ih]

theorem count_foldl_hremove (rem : List String) (h : Header) (k : String) :
    (hkeys (rem.foldl hremove h)).count k = (hkeys h).count k - rem.count k := by
  induction rem generalizing h with
  | nil => simp
  | cons j rest ih =>
    simp only [List.foldl_cons, ih, List.count_cons]
    by_cases hj : j = k
    · subst hj
      rw [count_hkeys_hremove_self]
      simp only [beq_self_eq_true, if_pos, ite_true]
      omega
    · rw [count_hkeys_hremove_ne h j k (Ne.symm hj)]
      have : (j == k) = false := by
        simp [hj]
      rw [this]
      simp

theorem headerfixLoop_rem_count (b : Bool) (ks : List String) (h : Header)
    (rem : List String) (h2 : Header) (rem2 : List String)
    (hs : headerfixLoop b ks h rem = some (h2, rem2)) :
    rem2 = rem ++ ks.filter (fun k => badKey k)
    ∧ ∀ k2, badKey k2 = true → (hkeys h2).count k2 = (hkeys h).count k2 := by
  induction ks generalizing h rem with
  | nil =>
    unfold headerfixLoop at hs
    simp only [Option.some.injEq, Prod.mk.injEq] at hs
    obtain ⟨rfl, rfl⟩ := hs
    simp
  | cons k rest ih =>
    unfold headerfixLoop at hs
    by_cases hbk : badKey k = true
    · simp only [hbk, if_pos, ite_true] at hs
      have hgoodkey : ∀ k2, badKey k2 = true →
          k2 ≠ "PC0" ++ pyReplace (pyUpper k) ("PC") ("") := by
        intro k2 hk2 he
        rw [he] at hk2
        rw [badKey_pc0_append] at hk2
        exact absurd hk2 (by simp)
      cases b with
      | true =>
        cases hsp : pySplitU (pyReplace (pyUpper k) ("PC") ("")) with
        | nil => rw [hsp] at hs; simp at hs
        | cons p0 ps =>
          cases ps with
          | nil => rw [hsp] at hs; simp at hs
          | cons p1 ps2 =>
            cases ps2 with
            | nil =>
              rw [hsp] at hs
              obtain ⟨ih1, ih2⟩ := ih _ _ hs
              constructor
              · rw [ih1, List.filter_cons, if_pos (by simp [hbk])]
                simp
              · intro k2 hk2
                rw [ih2 k2 hk2, count_hkeys_hset_ne _ _ _ _ (hgoodkey k2 hk2)]
            | cons p2 ps3 => rw [hsp] at hs; simp at hs
      | false =>
        cases hlk : hlookup h k with
        | none => rw [hlk] at hs; simp at hs
        | some v =>
          rw [hlk] at hs
          obtain ⟨ih1, ih2⟩ := ih _ _ hs
          constructor
          · rw [ih1, List.filter_cons, if_pos (by simp [hbk])]
            simp
          · intro k2 hk2
            rw [ih2 k2 hk2, count_hkeys_hset_ne _ _ _ _ (hgoodkey k2 hk2)]
    · have hbk2 : badKey k = false := by
        revert hbk
        cases badKey k <;> simp
      simp only [hbk2, Bool.false_eq_true, if_neg, ite_false] at hs
      obtain ⟨ih1, ih2⟩ := ih _ _ hs
      exact ⟨by rw [ih1, List.filter_cons, if_neg (by simp [hbk2])], ih2⟩

theorem headerfix_no_badKey (h : Header) (b : Bool) (h1 : Header)
    (hfix : headerfix h b = some h1) : ∀ k ∈ hkeys h1, badKey k = false := by
  unfold headerfix at hfix
  cases hl : headerfixLoop b (hkeys h) h [] with
  | none => rw [hl] at hfix; simp at hfix
  | some r =>
    rw [hl] at hfix
    simp only [Option.bind_eq_bind, Option.some_bind, Option.pure_def,
      Option.some.injEq] at hfix
    obtain ⟨h2, rem2⟩ := r
    obtain ⟨hrem, hcnt⟩ := headerfixLoop_rem_count b (hkeys h) h [] h2 rem2 hl
    intro k hk
    by_contra hbk
    have hbk2 : badKey k = true := by
      revert hbk
      cases badKey k <;> simp
    have hc1 : (hkeys h1).count k = 0 := by
      rw [← hfix]
      rw [count_foldl_hremove, hcnt k hbk2, hrem]
      simp only [List.nil_append]
      rw [List.count_filter hbk2]
      omega
    have := List.count_pos_iff.mpr hk
    omega

theorem headerfixLoop_all_good (b : Bool) (ks : List String) (h : Header)
    (rem : List String) (hall : ∀ k ∈ ks, badKey k = false) :
    headerfixLoop b ks h rem = some (h, rem) := by
  induction ks with
  | nil => rfl
  | cons k rest ih =>
    unfold headerfixLoop
    rw [if_neg (by simp [hall k (by simp)])]
    exact ih (fun k2 hk2 => hall k2 (by simp [hk2]))

/-- C5: headerfix is idempotent.  A successful run leaves no keyword
matching the migration condition, so a second run changes nothing at all;
in particular the canonical transform-matrix key set is the same after
one run and after two. -/
theorem C5_headerfix_idempotent (h : Header) (b : Bool) (h1 : Header)
    (hfix : headerfix h b = some h1) : headerfix h1 b = some h1 := by
  have hng := headerfix_no_badKey h b h1 hfix
  unfold headerfix
  rw [headerfixLoop_all_good b (hkeys h1) h1 [] hng]
  rfl

/-- Witness for C5 at a concrete header with one legacy PC card. -/
theorem C5_witness :
    headerfix [("PC1_1", Val.vnum 5)] true = some [("PC01_1", Val.vnum 1)]
    ∧ headerfix [("PC01_1", Val.vnum 1)] true = some [("PC01_1", Val.vnum 1)] :=
  ⟨by decide, C5_headerfix_idempotent [("PC1_1", Val.vnum 5)] true _ (by decide)⟩

theorem append_left_cancel_str (a s t : String) (he : a ++ s = a ++ t) : s = t := by
  have hd : (a ++ s).data = (a ++ t).data := by rw [he]
  rw [String.data_append, String.data_append] at hd
  exact strExt _ _ (List.append_cancel_left hd)

theorem hlookup_foldl_hremove_of_ne (rem : List String) (h : Header) (k : String)
    (hne : ∀ r ∈ rem, r ≠ k) : hlookup (rem.foldl hremove h) k = hlookup h k := by
  induction rem generalizing h with
  | nil => rfl
  | cons j rest ih =>
    simp only [List.foldl_cons]
    rw [ih (hremove h j) (fun r hr => hne r (by simp [hr]))]
    exact hlookup_hremove_ne h j k (hne j (by simp))

theorem headerfixLoop_preserve_val (ks : List String) (h : Header) (rem : List String)
    (h2 : Header) (rem2 : List String)
    (hs : headerfixLoop true ks h rem = some (h2, rem2))
    (s p0 p1 : String) (hsplit : pySplitU s = [p0, p1])
    (hval : hlookup h ("PC0" ++ s) = some (if p0 = p1 then Val.vnum 1 else Val.vnum 0)) :
    hlookup h2 ("PC0" ++ s) = some (if p0 = p1 then Val.vnum 1 else Val.vnum 0) := by
  induction ks generalizing h rem with
  | nil =>
    unfold headerfixLoop at hs
    simp only [Option.some.injEq, Prod.mk.injEq] at hs
    rw [← hs.1]
    exact hval
  | cons k rest ih =>
    unfold headerfixLoop at hs
    by_cases hbk : badKey k = true
    · simp only [hbk, if_pos, ite_true] at hs
      cases hsp : pySplitU (pyReplace (pyUpper k) ("PC") ("")) with
      | nil => rw [hsp] at hs; simp at hs
      | cons q0 qs =>
        cases qs with
        | nil => rw [hsp] at hs; simp at hs
        | cons q1 qs2 =>
          cases qs2 with
          | nil =>
            rw [hsp] at hs
            refine ih _ _ hs ?_
            by_cases heq : "PC0" ++ pyReplace (pyUpper k) ("PC") ("") = "PC0" ++ s
            · have hss : pyReplace (pyUpper k) ("PC") ("") = s :=
                append_left_cancel_str ("PC0") _ _ heq
              rw [hss] at hsp
              rw [hsplit] at hsp
              simp only [List.cons.injEq, and_true] at hsp
              obtain ⟨hq0, hq1⟩ := hsp
              rw [heq, ← hq0, ← hq1]
              exact hlookup_hset_self h _ _
            · rw [hlookup_hset_ne h _ _ _ heq]
              exact hval
          | cons q2 qs3 => rw [hsp] at hs; simp at hs
    · have hbk2 : badKey k = false := by
        revert hbk
        cases badKey k <;> simp
      simp only [hbk2, Bool.false_eq_true, if_neg, ite_false] at hs
      exact ih _ _ hs hval

theorem headerfixLoop_migrates (ks : List String) (h : Header) (rem : List String)
    (h2 : Header) (rem2 : List String)
    (hs : headerfixLoop true ks h rem = some (h2, rem2)) :
    ∀ k ∈ ks, badKey k = true →
      ∀ p0 p1, pySplitU (pyReplace (pyUpper k) ("PC") ("")) = [p0, p1] →
        hlookup h2 ("PC0" ++ pyReplace (pyUpper k) ("PC") (""))
          = some (if p0 = p1 then Val.vnum 1 else Val.vnum 0) := by
  induction ks generalizing h rem with
  | nil => intro k hk; simp at hk
  | cons k rest ih =>
    intro k2 hk2 hbk2 p0 p1 hsplit2
    unfold headerfixLoop at hs
    by_cases hbk : badKey k = true
    · simp only [hbk, if_pos, ite_true] at hs
      cases hsp : pySplitU (pyReplace (pyUpper k) ("PC") ("")) with
      | nil => rw [hsp] at hs; simp at hs
      | cons q0 qs =>
        cases qs with
        | nil => rw [hsp] at hs; simp at hs
        | cons q1 qs2 =>
          cases qs2 with
          | nil =>
            rw [hsp] at hs
            rcases List.mem_cons.mp hk2 with rfl | hk2r
            · have hq : q0 = p0 ∧ q1 = p1 := by
                rw [hsplit2] at hsp
                simp only [List.cons.injEq, and_true] at hsp
                exact ⟨hsp.1.symm, hsp.2.symm⟩
              obtain ⟨rfl, rfl⟩ := hq
              exact headerfixLoop_preserve_val rest _ _ h2 rem2 hs _ q0 q1 hsplit2
                (hlookup_hset_self h _ _)
            · exact ih _ _ hs k2 hk2r hbk2 p0 p1 hsplit2
          | cons q2 qs3 => rw [hsp] at hs; simp at hs
    · have hbk3 : badKey k = false := by
        revert hbk
        cases badKey k <;> simp
      simp only [hbk3, Bool.false_eq_true, if_neg, ite_false] at hs
      rcases List.mem_cons.mp hk2 with rfl | hk2r
      · rw [hbk3] at hbk2
        exact absurd hbk2 (by simp)
      · exact ih _ _ hs k2 hk2r hbk2 p0 p1 hsplit2

/-- C3 counterexample: running headerfix on the legacy cards PC1_1 and
PC1_01 yields the keys PC01_1 and PC01_01.  The key PC01_1 is a
transform-matrix key (it starts with PC) but is not in the canonical
zero-padded two-digit form (two digits, underscore, two digits), since
the code prepends PC0 without re-padding the second index; and the reset
value written for PC1_01, whose two axis indices are both numerically 1,
is 0.0 rather than 1.0, because the code compares the suffix parts as
strings. -/
theorem C3_counterexample :
    headerfix [("PC1_1", Val.vnum 5), ("PC1_01", Val.vnum 7)] true
      = some [("PC01_1", Val.vnum 1), ("PC01_01", Val.vnum 0)]
    ∧ pyStartsWith ("PC01_1") ("PC") = true
    ∧ isCanonPC2 ("PC01_1") = false
    ∧ hlookup [("PC01_1", Val.vnum 1), ("PC01_01", Val.vnum 0)] ("PC01_01")
        = some (Val.vnum 0) := by
  refine ⟨by decide, by decide, by decide, by decide⟩

/-- C3 (amended): after a successful headerfix run no remaining keyword
matches the migration condition (upper-cased: starts with PC but not with
PC0); every migrated keyword is the original with PC0 prepended to the
suffix obtained by deleting PC, and with the reset flag the value written
there is 1.0 exactly when the two suffix parts split at the underscore
are equal as strings, else 0.0.  The function takes no array and mutates
only the header. -/
theorem C3_headerfix_amended (h : Header) (b : Bool) (h1 : Header)
    (hfix : headerfix h b = some h1) :
    (∀ k ∈ hkeys h1, badKey k = false)
    ∧ (b = true → ∀ k ∈ hkeys h, badKey k = true →
        ∀ p0 p1, pySplitU (pyReplace (pyUpper k) ("PC") ("")) = [p0, p1] →
          hlookup h1 ("PC0" ++ pyReplace (pyUpper k) ("PC") (""))
            = some (if p0 = p1 then Val.vnum 1 else Val.vnum 0)) := by
  refine ⟨headerfix_no_badKey h b h1 hfix, ?_⟩
  intro hb
  subst hb
  unfold headerfix at hfix
  cases hl : headerfixLoop true (hkeys h) h [] with
  | none => rw [hl] at hfix; simp at hfix
  | some r =>
    rw [hl] at hfix
    simp only [Option.bind_eq_bind, Option.some_bind, Option.pure_def,
      Option.some.injEq] at hfix
    obtain ⟨h2, rem2⟩ := r
    obtain ⟨hrem, _⟩ := headerfixLoop_rem_count true (hkeys h) h [] h2 rem2 hl
    intro k hk hbk p0 p1 hsplit
    rw [← hfix]
    rw [hlookup_foldl_hremove_of_ne rem2 h2 _ ?_]
    · exact headerfixLoop_migrates (hkeys h) h [] h2 rem2 hl k hk hbk p0 p1 hsplit
    · intro r hr he
      rw [hrem] at hr
      simp only [List.nil_append, List.mem_filter] at hr
      rw [he, badKey_pc0_append] at hr
      exact absurd hr.2 (by simp)

/-- Witness for C3's amended theorem at a concrete legacy header. -/
theorem C3_witness :
    headerfix [("PC1_1", Val.vnum 5)] true = some [("PC01_1", Val.vnum 1)]
    ∧ ((∀ k ∈ hkeys [("PC01_1", Val.vnum 1)], badKey k = false)
      ∧ (true = true → ∀ k ∈ hkeys [("PC1_1", Val.vnum 5)], badKey k = true →
          ∀ p0 p1, pySplitU (pyReplace (pyUpper k) ("PC") ("")) = [p0, p1] →
            hlookup [("PC01_1", Val.vnum 1)] ("PC0" ++ pyReplace (pyUpper k) ("PC") (""))
              = some (if p0 = p1 then Val.vnum 1 else Val.vnum 0))) :=
  ⟨by decide,
   C3_headerfix_amended [("PC1_1", Val.vnum 5)] true [("PC01_1", Val.vnum 1)] (by decide)⟩

-- Compaction-count lemmas for the PC block of headersqueeze.

theorem cntNS_le (rs : List ℕ) (u : ℕ) : cntNS rs u ≤ u := by
  unfold cntNS
  calc ((rs.take u).filter (fun d => 1 < d)).length
      ≤ (rs.take u).length := List.length_filter_le _ _
    _ ≤ u := by rw [List.length_take]; omega

theorem cntNS_succ (rs : List ℕ) (u : ℕ) (hu : u < rs.length) :
    cntNS rs (u + 1) = cntNS rs u + (if 1 < rs.getD u 0 then 1 else 0) := by
  unfold cntNS
  rw [List.take_succ, List.filter_append, List.length_append]
  congr 1
  rw [List.getElem?_eq_getElem hu]
  rw [List.getD_eq_getElem rs 0 hu]
  by_cases hd : 1 < rs[u]
  · simp [hd]
  · simp [hd]

theorem cntNS_succ_dimAt (rs : List ℕ) (u : ℕ) (hu : u < rs.length) :
    cntNS rs (u + 1) = cntNS rs u + (if 1 < dimAt rs (u + 1) then 1 else 0) := by
  rw [cntNS_succ rs u hu]
  rfl

theorem cntNS_le_succ (rs : List ℕ) (u : ℕ) : cntNS rs u ≤ cntNS rs (u + 1) := by
  unfold cntNS
  rw [List.take_succ, List.filter_append, List.length_append]
  omega

theorem cntNS_mono (rs : List ℕ) (u v : ℕ) (huv : u ≤ v) : cntNS rs u ≤ cntNS rs v := by
  induction v with
  | zero =>
    have hu0 : u = 0 := by omega
    subst hu0
    exact le_rfl
  | succ w ih =>
    rcases Nat.lt_or_ge u (w + 1) with hlt | hge
    · exact le_trans (ih (by omega)) (cntNS_le_succ rs w)
    · have huw : u = w + 1 := by omega
      subst huw
      exact le_rfl

theorem cntNS_strict (rs : List ℕ) (u v : ℕ) (huv : u < v) (hv : v ≤ rs.length)
    (hNS : 1 < dimAt rs v) : cntNS rs u < cntNS rs v := by
  have h1 : cntNS rs u ≤ cntNS rs (v - 1) := cntNS_mono rs u (v - 1) (by omega)
  have h2 : cntNS rs ((v - 1) + 1) = cntNS rs (v - 1) + 1 := by
    rw [cntNS_succ_dimAt rs (v - 1) (by omega)]
    have : (v - 1) + 1 = v := by omega
    rw [this, if_pos hNS]
  have : (v - 1) + 1 = v := by omega
  rw [this] at h2
  omega

theorem cntNS_inj_NS (rs : List ℕ) (u v : ℕ) (hu : u ≤ rs.length) (hv : v ≤ rs.length)
    (hNSu : 1 < dimAt rs u) (hNSv : 1 < dimAt rs v)
    (he : cntNS rs u = cntNS rs v) : u = v := by
  rcases Nat.lt_trichotomy u v with hlt | heq | hgt
  · have := cntNS_strict rs u v hlt hv hNSv
    omega
  · exact heq
  · have := cntNS_strict rs v u hgt hu hNSu
    omega

theorem cntNS_pos_of_NS (rs : List ℕ) (u : ℕ) (h1 : 1 ≤ u) (hu : u ≤ rs.length)
    (hNS : 1 < dimAt rs u) : 1 ≤ cntNS rs u := by
  have := cntNS_strict rs 0 u (by omega) hu hNS
  unfold cntNS at this ⊢
  simp at this
  omega

theorem ucFind_some (rs : List ℕ) (a i : ℕ) (h : ucFind rs a = some i) :
    1 ≤ i ∧ i ≤ rs.length ∧ 1 < dimAt rs i ∧ cntNS rs i = a := by
  unfold ucFind at h
  have hp := List.find?_some h
  have hm := List.mem_of_find?_eq_some h
  rw [List.mem_range'] at hm
  obtain ⟨j, hj, rfl⟩ := hm
  simp only [Bool.and_eq_true, decide_eq_true_eq] at hp
  exact ⟨by omega, by omega, hp.1, hp.2⟩

theorem ucFind_eq_of (rs : List ℕ) (a i : ℕ) (h1 : 1 ≤ i) (hn : i ≤ rs.length)
    (hNS : 1 < dimAt rs i) (hc : cntNS rs i = a) : ucFind rs a = some i := by
  have hsome : (ucFind rs a).isSome := by
    unfold ucFind
    rw [List.find?_isSome]
    refine ⟨i, ?_, ?_⟩
    · rw [List.mem_range']
      exact ⟨i - 1, by omega, by omega⟩
    · simp [hNS, hc]
  cases hfind : ucFind rs a with
  | none => rw [hfind] at hsome; simp at hsome
  | some j =>
    obtain ⟨hj1, hjn, hjNS, hjc⟩ := ucFind_some rs a j hfind
    have hji : j = i := cntNS_inj_NS rs j i hjn hn hjNS hNS (by rw [hjc]; exact hc.symm)
    rw [← hji]

theorem ucFind_ge (rs : List ℕ) (a i : ℕ) (h : ucFind rs a = some i) : a ≤ i := by
  obtain ⟨_, _, _, hc⟩ := ucFind_some rs a i h
  have := cntNS_le rs i
  omega

-- posLex helpers.

theorem posLex_succ_iff (a b r q : ℕ) :
    posLex a b r (q + 1) ↔ posLex a b r q ∨ (a = r ∧ b = q) := by
  unfold posLex
  omega

theorem posLex_self_false (r q : ℕ) : ¬ posLex r q r q := by
  unfold posLex
  omega

theorem posLex_row_end (a b r n : ℕ) (hb1 : 1 ≤ b) (hb : b ≤ n) :
    posLex a b r (n + 1) ↔ posLex a b (r + 1) 1 := by
  unfold posLex
  omega

-- stVal transition lemmas, describing the PC-loop state machine.

theorem stVal_init (h1 : Header) (rs : List ℕ) (a b : ℕ) (ha : 1 ≤ a) (hb : 1 ≤ b) :
    stVal h1 rs 1 1 a b = hlookup h1 (pcKey a b) := by
  unfold stVal
  rw [if_neg (by unfold posLex; omega)]

theorem stVal_row_end_eq (h1 : Header) (rs : List ℕ) (r a b : ℕ)
    (hb1 : 1 ≤ b) (hbn : b ≤ rs.length) :
    stVal h1 rs r (rs.length + 1) a b = stVal h1 rs (r + 1) 1 a b := by
  unfold stVal
  by_cases hpos : posLex a b r (rs.length + 1)
  · rw [if_pos hpos, if_pos ((posLex_row_end a b r rs.length hb1 hbn).mp hpos)]
    cases hua : ucFind rs a with
    | none => rfl
    | some i =>
      cases hub : ucFind rs b with
      | none => rfl
      | some j =>
        dsimp only
        obtain ⟨hj1, hjn, _, _⟩ := ucFind_some rs b j hub
        by_cases hij : posLex i j r (rs.length + 1)
        · rw [if_pos hij, if_pos ((posLex_row_end i j r rs.length hj1 hjn).mp hij)]
        · rw [if_neg hij,
            if_neg (fun hc => hij ((posLex_row_end i j r rs.length hj1 hjn).mpr hc))]
  · rw [if_neg hpos,
      if_neg (fun hc => hpos ((posLex_row_end a b r rs.length hb1 hbn).mpr hc))]

theorem stVal_end (h1 : Header) (rs : List ℕ) (a b : ℕ) (ha1 : 1 ≤ a)
    (han : a ≤ rs.length) :
    stVal h1 rs (rs.length + 1) 1 a b
      = (match ucFind rs a, ucFind rs b with
         | some i, some j => hlookup h1 (pcKey i j)
         | _, _ => none) := by
  unfold stVal
  rw [if_pos (by unfold posLex; omega)]
  cases hua : ucFind rs a with
  | none => rfl
  | some i =>
    cases hub : ucFind rs b with
    | none => rfl
    | some j =>
      dsimp only
      obtain ⟨_, hin, _, _⟩ := ucFind_some rs a i hua
      rw [if_pos (by unfold posLex; omega)]

theorem stVal_succ_src_none (h1 : Header) (rs : List ℕ) (r q a b : ℕ)
    (hsrc : hlookup h1 (pcKey r q) = none) :
    stVal h1 rs r (q + 1) a b = stVal h1 rs r q a b := by
  unfold stVal
  by_cases hpos : posLex a b r q
  · rw [if_pos hpos, if_pos ((posLex_succ_iff a b r q).mpr (Or.inl hpos))]
    cases hua : ucFind rs a with
    | none => rfl
    | some i =>
      cases hub : ucFind rs b with
      | none => rfl
      | some j =>
        dsimp only
        by_cases hij : posLex i j r q
        · rw [if_pos hij, if_pos ((posLex_succ_iff i j r q).mpr (Or.inl hij))]
        · rw [if_neg hij]
          by_cases hij2 : posLex i j r (q + 1)
          · rcases (posLex_succ_iff i j r q).mp hij2 with hc | ⟨rfl, rfl⟩
            · exact absurd hc hij
            · rw [if_pos hij2, hsrc]
          · rw [if_neg hij2]
  · rw [if_neg hpos]
    by_cases hpos2 : posLex a b r (q + 1)
    · rcases (posLex_succ_iff a b r q).mp hpos2 with hc | ⟨rfl, rfl⟩
      · exact absurd hc hpos
      · rw [if_pos hpos2, hsrc]
        cases hua : ucFind rs a with
        | none => rfl
        | some i =>
          cases hub : ucFind rs b with
          | none => rfl
          | some j =>
            dsimp only
            by_cases hij : posLex i j a (b + 1)
            · rw [if_pos hij]
              have hai : a ≤ i := ucFind_ge rs a i hua
              have hbj : b ≤ j := ucFind_ge rs b j hub
              have hia : i = a := by
                unfold posLex at hij
                omega
              have hjb : j = b := by
                unfold posLex at hij
                omega
              rw [hia, hjb, hsrc]
            · rw [if_neg hij]
    · rw [if_neg hpos2]

theorem stVal_succ_untouched (h1 : Header) (rs : List ℕ) (r q a b : ℕ)
    (hab : ¬(a = r ∧ b = q))
    (hnw : ¬(ucFind rs a = some r ∧ ucFind rs b = some q)) :
    stVal h1 rs r (q + 1) a b = stVal h1 rs r q a b := by
  unfold stVal
  by_cases hpos : posLex a b r q
  · rw [if_pos hpos, if_pos ((posLex_succ_iff a b r q).mpr (Or.inl hpos))]
    cases hua : ucFind rs a with
    | none => rfl
    | some i =>
      cases hub : ucFind rs b with
      | none => rfl
      | some j =>
        dsimp only
        by_cases hij : posLex i j r q
        · rw [if_pos hij, if_pos ((posLex_succ_iff i j r q).mpr (Or.inl hij))]
        · rw [if_neg hij]
          by_cases hij2 : posLex i j r (q + 1)
          · rcases (posLex_succ_iff i j r q).mp hij2 with hc | ⟨rfl, rfl⟩
            · exact absurd hc hij
            · exact absurd ⟨hua, hub⟩ hnw
          · rw [if_neg hij2]
  · rw [if_neg hpos]
    rw [if_neg (by
      intro hpos2
      rcases (posLex_succ_iff a b r q).mp hpos2 with hc | ⟨ha, hb⟩
      · exact hpos hc
      · exact hab ⟨ha, hb⟩)]

theorem stVal_succ_target (h1 : Header) (rs : List ℕ) (r q a b : ℕ)
    (hua : ucFind rs a = some r) (hub : ucFind rs b = some q) :
    stVal h1 rs r (q + 1) a b = hlookup h1 (pcKey r q) := by
  have har : a ≤ r := ucFind_ge rs a r hua
  have hbq : b ≤ q := ucFind_ge rs b q hub
  unfold stVal
  rw [if_pos (by unfold posLex; omega), hua, hub]
  dsimp only
  rw [if_pos (by unfold posLex; omega)]

theorem stVal_succ_self_removed (h1 : Header) (rs : List ℕ) (r q : ℕ)
    (hnw : ¬(ucFind rs r = some r ∧ ucFind rs q = some q)) :
    stVal h1 rs r (q + 1) r q = none := by
  unfold stVal
  rw [if_pos (by unfold posLex; omega)]
  cases hua : ucFind rs r with
  | none => rfl
  | some i =>
    cases hub : ucFind rs q with
    | none => rfl
    | some j =>
      dsimp only
      have hir : r ≤ i := ucFind_ge rs r i hua
      have hjq : q ≤ j := ucFind_ge rs q j hub
      rw [if_neg (by
        intro hp
        have hie : i = r := by
          unfold posLex at hp
          omega
        have hje : j = q := by
          unfold posLex at hp
          omega
        rw [hie] at hua
        rw [hje] at hub
        exact hnw ⟨hua, hub⟩)]

theorem pcStep_nodup (rs : List ℕ) (r q : ℕ) (g : Header)
    (hnd : (hkeys g).Nodup) : (hkeys (pcStep rs r q g)).Nodup := by
  unfold pcStep
  cases hlookup g (pcKey r q) with
  | none => exact hnd
  | some v =>
    dsimp only
    by_cases hret : 1 < dimAt rs r ∧ 1 < dimAt rs q
    · rw [if_pos hret]
      exact hkeys_nodup_hset _ _ _ (hkeys_nodup_hremove g _ hnd)
    · rw [if_neg hret]
      exact hkeys_nodup_hremove g _ hnd

theorem pcStep_stVal (h1 g : Header) (rs : List ℕ) (r q : ℕ)
    (hr1 : 1 ≤ r) (hrn : r ≤ rs.length) (hq1 : 1 ≤ q) (hqn : q ≤ rs.length)
    (hnd : (hkeys g).Nodup)
    (hg : ∀ a b, 1 ≤ a → a ≤ rs.length → 1 ≤ b → b ≤ rs.length →
      hlookup g (pcKey a b) = stVal h1 rs r q a b)
    (a b : ℕ) (ha1 : 1 ≤ a) (han : a ≤ rs.length) (hb1 : 1 ≤ b) (hbn : b ≤ rs.length) :
    hlookup (pcStep rs r q g) (pcKey a b) = stVal h1 rs r (q + 1) a b := by
  have hread : hlookup g (pcKey r q) = hlookup h1 (pcKey r q) := by
    rw [hg r q hr1 hrn hq1 hqn]
    unfold stVal
    rw [if_neg (posLex_self_false r q)]
  unfold pcStep
  cases hsrc : hlookup h1 (pcKey r q) with
  | none =>
    rw [hread, hsrc]
    rw [hg a b ha1 han hb1 hbn]
    exact (stVal_succ_src_none h1 rs r q a b hsrc).symm
  | some v =>
    rw [hread, hsrc]
    dsimp only
    by_cases hret : 1 < dimAt rs r ∧ 1 < dimAt rs q
    · rw [if_pos hret]
      by_cases htarget : a = cntNS rs r ∧ b = cntNS rs q
      · obtain ⟨rfl, rfl⟩ := htarget
        have hua : ucFind rs (cntNS rs r) = some r :=
          ucFind_eq_of rs (cntNS rs r) r hr1 hrn hret.1 rfl
        have hub : ucFind rs (cntNS rs q) = some q :=
          ucFind_eq_of rs (cntNS rs q) q hq1 hqn hret.2 rfl
        rw [stVal_succ_target h1 rs r q _ _ hua hub, hsrc]
        exact hlookup_hset_self _ _ _
      · rw [hlookup_hset_ne _ _ _ _ (fun he => htarget
          ⟨(pcKey_inj _ _ _ _ he).1.symm, (pcKey_inj _ _ _ _ he).2.symm⟩)]
        by_cases hq2 : a = r ∧ b = q
        · obtain ⟨rfl, rfl⟩ := hq2
          rw [hlookup_hremove_self g _ hnd]
          refine (stVal_succ_self_removed h1 rs a b ?_).symm
          intro hw
          obtain ⟨hw1, hw2⟩ := hw
          exact htarget ⟨((ucFind_some rs a a hw1).2.2.2).symm,
            ((ucFind_some rs b b hw2).2.2.2).symm⟩
        · rw [hlookup_hremove_ne g _ _ (fun he => hq2
            ⟨(pcKey_inj _ _ _ _ he).1.symm, (pcKey_inj _ _ _ _ he).2.symm⟩)]
          rw [hg a b ha1 han hb1 hbn]
          refine (stVal_succ_untouched h1 rs r q a b hq2 ?_).symm
          intro hw
          obtain ⟨hw1, hw2⟩ := hw
          exact htarget ⟨((ucFind_some rs a r hw1).2.2.2).symm,
            ((ucFind_some rs b q hw2).2.2.2).symm⟩
    · rw [if_neg hret]
      by_cases hq2 : a = r ∧ b = q
      · obtain ⟨rfl, rfl⟩ := hq2
        rw [hlookup_hremove_self g _ hnd]
        refine (stVal_succ_self_removed h1 rs a b ?_).symm
        intro hw
        obtain ⟨hw1, hw2⟩ := hw
        exact hret ⟨(ucFind_some rs a a hw1).2.2.1, (ucFind_some rs b b hw2).2.2.1⟩
      · rw [hlookup_hremove_ne g _ _ (fun he => hq2
          ⟨(pcKey_inj _ _ _ _ he).1.symm, (pcKey_inj _ _ _ _ he).2.symm⟩)]
        rw [hg a b ha1 han hb1 hbn]
        refine (stVal_succ_untouched h1 rs r q a b hq2 ?_).symm
        intro hw
        obtain ⟨hw1, hw2⟩ := hw
        exact hret ⟨(ucFind_some rs a r hw1).2.2.1, (ucFind_some rs b q hw2).2.2.1⟩

theorem pcInner_nodup (idx1 dim1 cnt1 : ℕ) (l : List ℕ) :
    ∀ (idx2 cnt2 : ℕ) (g : Header), (hkeys g).Nodup →
      (hkeys (pcInner idx1 dim1 cnt1 l idx2 cnt2 g)).Nodup := by
  induction l with
  | nil => intro idx2 cnt2 g hnd; exact hnd
  | cons dim2 rest ih =>
    intro idx2 cnt2 g hnd
    unfold pcInner
    apply ih
    cases hlookup g (pcKey (idx1 + 1) (idx2 + 1)) with
    | none => exact hnd
    | some v =>
      dsimp only
      by_cases hret : 1 < dim1 ∧ 1 < dim2
      · rw [if_pos hret]
        exact hkeys_nodup_hset _ _ _ (hkeys_nodup_hremove g _ hnd)
      · rw [if_neg hret]
        exact hkeys_nodup_hremove g _ hnd

theorem cntNS_zero (rs : List ℕ) : cntNS rs 0 = 0 := rfl

theorem cntNS_succ_ite (rs : List ℕ) (u : ℕ) (hu : u < rs.length) :
    (if 1 < dimAt rs (u + 1) then cntNS rs u + 1 else cntNS rs u) = cntNS rs (u + 1) := by
  rw [cntNS_succ_dimAt rs u hu]
  by_cases hd : 1 < dimAt rs (u + 1) <;> simp [hd]

theorem pcInner_cons_eq (rs : List ℕ) (idx1 idx2 : ℕ) (rest : List ℕ) (g : Header)
    (hlt : idx2 < rs.length) :
    pcInner idx1 (dimAt rs (idx1 + 1)) (cntNS rs (idx1 + 1))
        (dimAt rs (idx2 + 1) :: rest) idx2 (cntNS rs idx2) g
      = pcInner idx1 (dimAt rs (idx1 + 1)) (cntNS rs (idx1 + 1)) rest (idx2 + 1)
          (cntNS rs (idx2 + 1)) (pcStep rs (idx1 + 1) (idx2 + 1) g) := by
  conv_lhs => rw [pcInner]
  rw [cntNS_succ_ite rs idx2 hlt]
  rfl

theorem pcInner_spec (h1 : Header) (rs : List ℕ) (idx1 : ℕ) (hr : idx1 < rs.length) :
    ∀ (l : List ℕ) (idx2 : ℕ) (g : Header),
      rs.drop idx2 = l → idx2 ≤ rs.length →
      (hkeys g).Nodup →
      (∀ a b, 1 ≤ a → a ≤ rs.length → 1 ≤ b → b ≤ rs.length →
        hlookup g (pcKey a b) = stVal h1 rs (idx1 + 1) (idx2 + 1) a b) →
      ∀ a b, 1 ≤ a → a ≤ rs.length → 1 ≤ b → b ≤ rs.length →
        hlookup (pcInner idx1 (dimAt rs (idx1 + 1)) (cntNS rs (idx1 + 1))
            l idx2 (cntNS rs idx2) g) (pcKey a b)
          = stVal h1 rs (idx1 + 1) (rs.length + 1) a b := by
  intro l
  induction l with
  | nil =>
    intro idx2 g hdrop hle hnd hg a b ha1 han hb1 hbn
    have hlen : rs.length - idx2 = 0 := by
      have := List.length_drop idx2 rs
      rw [hdrop] at this
      simp at this
      omega
    have hidx : idx2 = rs.length := by omega
    subst hidx
    exact hg a b ha1 han hb1 hbn
  | cons dim2 rest ih =>
    intro idx2 g hdrop hle hnd hg a b ha1 han hb1 hbn
    have hlt : idx2 < rs.length := by
      have := List.length_drop idx2 rs
      rw [hdrop] at this
      simp at this
      omega
    have hcons : rs.drop idx2 = rs[idx2] :: rs.drop (idx2 + 1) :=
      List.drop_eq_getElem_cons hlt
    rw [hdrop] at hcons
    have hdim2 : dim2 = dimAt rs (idx2 + 1) := by
      have := hcons
      simp only [List.cons.injEq] at this
      rw [this.1]
      unfold dimAt
      simp only [Nat.add_sub_cancel]
      rw [List.getD_eq_getElem rs 0 hlt]
    have hrest : rest = rs.drop (idx2 + 1) := by
      have := hcons
      simp only [List.cons.injEq] at this
      exact this.2
    subst hdim2
    rw [pcInner_cons_eq rs idx1 idx2 rest g hlt]
    apply ih (idx2 + 1) (pcStep rs (idx1 + 1) (idx2 + 1) g) hrest.symm (by omega)
      (pcStep_nodup rs (idx1 + 1) (idx2 + 1) g hnd)
      ?_ a b ha1 han hb1 hbn
    intro x y hx1 hxn hy1 hyn
    exact pcStep_stVal h1 g rs (idx1 + 1) (idx2 + 1) (by omega) (by omega) (by omega)
      (by omega) hnd hg x y hx1 hxn hy1 hyn

theorem pcOuter_cons_eq (rs : List ℕ) (idx1 : ℕ) (rest : List ℕ) (g : Header)
    (hlt : idx1 < rs.length) :
    pcOuter rs (dimAt rs (idx1 + 1) :: rest) idx1 (cntNS rs idx1) g
      = pcOuter rs rest (idx1 + 1) (cntNS rs (idx1 + 1))
          (pcInner idx1 (dimAt rs (idx1 + 1)) (cntNS rs (idx1 + 1)) rs 0 0 g) := by
  conv_lhs => rw [pcOuter]
  rw [cntNS_succ_ite rs idx1 hlt]

theorem pcOuter_spec (h1 : Header) (rs : List ℕ) :
    ∀ (l : List ℕ) (idx1 : ℕ) (g : Header),
      rs.drop idx1 = l → idx1 ≤ rs.length →
      (hkeys g).Nodup →
      (∀ a b, 1 ≤ a → a ≤ rs.length → 1 ≤ b → b ≤ rs.length →
        hlookup g (pcKey a b) = stVal h1 rs (idx1 + 1) 1 a b) →
      ∀ a b, 1 ≤ a → a ≤ rs.length → 1 ≤ b → b ≤ rs.length →
        hlookup (pcOuter rs l idx1 (cntNS rs idx1) g) (pcKey a b)
          = stVal h1 rs (rs.length + 1) 1 a b := by
  intro l
  induction l with
  | nil =>
    intro idx1 g hdrop hle hnd hg a b ha1 han hb1 hbn
    have hlen : rs.length - idx1 = 0 := by
      have := List.length_drop idx1 rs
      rw [hdrop] at this
      simp at this
      omega
    have hidx : idx1 = rs.length := by omega
    subst hidx
    exact hg a b ha1 han hb1 hbn
  | cons dim1 rest ih =>
    intro idx1 g hdrop hle hnd hg a b ha1 han hb1 hbn
    have hlt : idx1 < rs.length := by
      have := List.length_drop idx1 rs
      rw [hdrop] at this
      simp at this
      omega
    have hcons : rs.drop idx1 = rs[idx1] :: rs.drop (idx1 + 1) :=
      List.drop_eq_getElem_cons hlt
    rw [hdrop] at hcons
    have hdim1 : dim1 = dimAt rs (idx1 + 1) := by
      have := hcons
      simp only [List.cons.injEq] at this
      rw [this.1]
      unfold dimAt
      simp only [Nat.add_sub_cancel]
      rw [List.getD_eq_getElem rs 0 hlt]
    have hrest : rest = rs.drop (idx1 + 1) := by
      have := hcons
      simp only [List.cons.injEq] at this
      exact this.2
    subst hdim1
    rw [pcOuter_cons_eq rs idx1 rest g hlt]
    apply ih (idx1 + 1)
      (pcInner idx1 (dimAt rs (idx1 + 1)) (cntNS rs (idx1 + 1)) rs 0 0 g)
      hrest.symm (by omega)
      (by
        have h0 : (0 : ℕ) = cntNS rs 0 := rfl
        exact pcInner_nodup idx1 (dimAt rs (idx1 + 1)) (cntNS rs (idx1 + 1)) rs 0 0 g hnd)
      ?_ a b ha1 han hb1 hbn
    intro x y hx1 hxn hy1 hyn
    have hinner := pcInner_spec h1 rs idx1 hlt rs 0 g rfl (by omega) hnd
      (by
        intro u w hu1 hun hw1 hwn
        exact hg u w hu1 hun hw1 hwn)
      x y hx1 hxn hy1 hyn
    exact hinner.trans (stVal_row_end_eq h1 rs (idx1 + 1) x y hy1 hyn)

theorem keys2chng_ne_pcKey (k : String) (hk : k ∈ keys2chng) (i a b : ℕ) :
    axKey k i ≠ pcKey a b := by
  have hcase : k = "NAXIS" ∨ k = "CTYPE" ∨ k = "CRVAL" ∨ k = "CDELT" ∨ k = "CRPIX"
      ∨ k = "CUNIT" := by
    simpa [keys2chng] using hk
  rcases hcase with rfl | rfl | rfl | rfl | rfl | rfl <;>
    refine ne_pcKey_of_head _ ?_ a b <;>
    rw [axKey_head _ (by decide) i] <;> decide

theorem stokes_ne_pcKey (a b : ℕ) : ("STOKES" : String) ≠ pcKey a b :=
  ne_pcKey_of_head _ (by decide) a b

theorem naxis_ne_pcKey (a b : ℕ) : ("NAXIS" : String) ≠ pcKey a b :=
  ne_pcKey_of_head _ (by decide) a b

theorem axisStep_preserve (idx dim cnt : ℕ) (h h2 : Header) (k : String)
    (hk : k ∈ keys2chng) (hstep : axisStep idx dim cnt h k = some h2) :
    (∀ a b, hlookup h2 (pcKey a b) = hlookup h (pcKey a b))
    ∧ ((hkeys h).Nodup → (hkeys h2).Nodup) := by
  unfold axisStep at hstep
  cases hv : hlookup h (axKey k (idx + 1)) with
  | none => rw [hv] at hstep; simp at hstep
  | some v =>
    rw [hv] at hstep
    simp only [Option.bind_eq_bind, Option.some_bind] at hstep
    by_cases hdim : 1 < dim
    · rw [if_pos hdim] at hstep
      simp only [Option.pure_def, Option.some.injEq] at hstep
      subst hstep
      constructor
      · intro a b
        rw [hlookup_hset_ne _ _ _ _ (keys2chng_ne_pcKey k hk cnt a b),
          hlookup_hremove_ne _ _ _ (keys2chng_ne_pcKey k hk (idx + 1) a b)]
      · intro hnd
        exact hkeys_nodup_hset _ _ _ (hkeys_nodup_hremove h _ hnd)
    · rw [if_neg hdim] at hstep
      by_cases hct : k = "CTYPE"
      · rw [if_pos hct] at hstep
        cases v with
        | vint n => simp at hstep
        | vnum q => simp at hstep
        | vstr s =>
          dsimp only at hstep
          by_cases hst : pyStartsWith s ("STOKES") = true
          · rw [if_pos hst] at hstep
            cases hc : hlookup (hremove h (axKey k (idx + 1))) (axKey ("CRVAL") (idx + 1)) with
            | none => rw [hc] at hstep; simp at hstep
            | some c =>
              rw [hc] at hstep
              simp only [Option.bind_eq_bind, Option.some_bind, Option.pure_def,
                Option.some.injEq] at hstep
              subst hstep
              constructor
              · intro a b
                rw [hlookup_hset_ne _ _ _ _ (stokes_ne_pcKey a b),
                  hlookup_hremove_ne _ _ _ (keys2chng_ne_pcKey k hk (idx + 1) a b)]
              · intro hnd
                exact hkeys_nodup_hset _ _ _ (hkeys_nodup_hremove h _ hnd)
          · rw [if_neg hst] at hstep
            simp only [Option.pure_def, Option.some.injEq] at hstep
            subst hstep
            constructor
            · intro a b
              rw [hlookup_hremove_ne _ _ _ (keys2chng_ne_pcKey k hk (idx + 1) a b)]
            · intro hnd
              exact hkeys_nodup_hremove h _ hnd
      · rw [if_neg hct] at hstep
        simp only [Option.pure_def, Option.some.injEq] at hstep
        subst hstep
        constructor
        · intro a b
          rw [hlookup_hremove_ne _ _ _ (keys2chng_ne_pcKey k hk (idx + 1) a b)]
        · intro hnd
          exact hkeys_nodup_hremove h _ hnd

theorem axisFold_preserve (idx dim cnt : ℕ) :
    ∀ (l : List String) (h h2 : Header), (∀ k ∈ l, k ∈ keys2chng) →
      axisFold idx dim cnt l h = some h2 →
      (∀ a b, hlookup h2 (pcKey a b) = hlookup h (pcKey a b))
      ∧ ((hkeys h).Nodup → (hkeys h2).Nodup) := by
  intro l
  induction l with
  | nil =>
    intro h h2 _ hf
    unfold axisFold at hf
    simp only [Option.some.injEq] at hf
    subst hf
    exact ⟨fun a b => rfl, fun hnd => hnd⟩
  | cons k rest ih =>
    intro h h2 hsub hf
    unfold axisFold at hf
    cases hstep : axisStep idx dim cnt h k with
    | none => rw [hstep] at hf; simp at hf
    | some hmid =>
      rw [hstep] at hf
      simp only [Option.bind_eq_bind, Option.some_bind] at hf
      obtain ⟨hp1, hp2⟩ := axisStep_preserve idx dim cnt h hmid k (hsub k (by simp)) hstep
      obtain ⟨hq1, hq2⟩ := ih hmid h2 (fun k2 hk2 => hsub k2 (by simp [hk2])) hf
      exact ⟨fun a b => (hq1 a b).trans (hp1 a b), fun hnd => hq2 (hp2 hnd)⟩

theorem axesLoop_preserve :
    ∀ (l : List ℕ) (idx cnt : ℕ) (h h2 : Header),
      axesLoop l idx cnt h = some h2 →
      (∀ a b, hlookup h2 (pcKey a b) = hlookup h (pcKey a b))
      ∧ ((hkeys h).Nodup → (hkeys h2).Nodup) := by
  intro l
  induction l with
  | nil =>
    intro idx cnt h h2 hf
    unfold axesLoop at hf
    simp only [Option.some.injEq] at hf
    subst hf
    exact ⟨fun a b => rfl, fun hnd => hnd⟩
  | cons dim rest ih =>
    intro idx cnt h h2 hf
    unfold axesLoop at hf
    dsimp only at hf
    cases hfold : axisFold idx dim (if 1 < dim then cnt + 1 else cnt) keys2chng h with
    | none => rw [hfold] at hf; simp at hf
    | some hmid =>
      rw [hfold] at hf
      simp only [Option.bind_eq_bind, Option.some_bind] at hf
      obtain ⟨hp1, hp2⟩ := axisFold_preserve idx dim _ keys2chng h hmid (fun k hk => hk) hfold
      obtain ⟨hq1, hq2⟩ := ih (idx + 1) _ hmid h2 hf
      exact ⟨fun a b => (hq1 a b).trans (hp1 a b), fun hnd => hq2 (hp2 hnd)⟩

theorem cntNS_eq_self (rs : List ℕ) (hall : ∀ x ∈ rs, 1 < x) (u : ℕ) (hu : u ≤ rs.length) :
    cntNS rs u = u := by
  unfold cntNS
  rw [List.filter_eq_self.mpr ?_]
  · rw [List.length_take]
    omega
  · intro x hx
    exact decide_eq_true (hall x (List.mem_of_mem_take hx))

/-- C4: transform-matrix consistency of headersqueeze.  For a header with
duplicate-free keywords and an array with positive axis lengths, whenever
headersqueeze returns: (1) for every pair of non-singleton original
1-based axes (i, j) the returned header's PC entry at the compacted index
pair equals the original PC entry of (i, j) (as Option values, so a
missing original entry stays missing); and (2) every surviving in-range
PC entry of the returned header is the migrated entry of a pair of
non-singleton original axes - hence no entry corresponding to a pair with
a singleton axis survives. -/
theorem C4_headersqueeze_pc (h h2 : Header) (d d2 : NDArray)
    (hnd : (hkeys h).Nodup)
    (hdims : ∀ x ∈ d.shape, 1 ≤ x)
    (hsq : headersqueeze h d = some (h2, d2)) :
    (∀ i j, 1 ≤ i → i ≤ d.ndim → 1 ≤ j → j ≤ d.ndim →
      1 < dimAt d.shape.reverse i → 1 < dimAt d.shape.reverse j →
      hlookup h2 (pcKey (cntNS d.shape.reverse i) (cntNS d.shape.reverse j))
        = hlookup h (pcKey i j))
    ∧ (∀ a b, 1 ≤ a → a ≤ d.ndim → 1 ≤ b → b ≤ d.ndim →
        ∀ v, hlookup h2 (pcKey a b) = some v →
          ∃ i j, 1 ≤ i ∧ i ≤ d.ndim ∧ 1 ≤ j ∧ j ≤ d.ndim
            ∧ 1 < dimAt d.shape.reverse i ∧ 1 < dimAt d.shape.reverse j
            ∧ cntNS d.shape.reverse i = a ∧ cntNS d.shape.reverse j = b
            ∧ hlookup h (pcKey i j) = some v) := by
  have hlen : d.shape.reverse.length = d.ndim := by
    unfold NDArray.ndim
    exact List.length_reverse d.shape
  unfold headersqueeze at hsq
  by_cases hc : d.shape.count 1 = 0
  · simp only [hc, if_pos, ite_true, Option.some.injEq, Prod.mk.injEq] at hsq
    obtain ⟨rfl, rfl⟩ := hsq
    have hall : ∀ x ∈ d.shape.reverse, 1 < x := by
      intro x hx
      rw [List.mem_reverse] at hx
      have h1 := hdims x hx
      have h2 : x ≠ 1 := by
        intro he
        subst he
        have := List.count_pos_iff.mpr hx
        omega
      omega
    constructor
    · intro i j hi1 hin hj1 hjn _ _
      rw [cntNS_eq_self _ hall i (by omega), cntNS_eq_self _ hall j (by omega)]
    · intro a b ha1 han hb1 hbn v hv
      refine ⟨a, b, ha1, han, hb1, hbn, ?_, ?_, ?_, ?_, hv⟩
      · have : a - 1 < d.shape.reverse.length := by omega
        unfold dimAt
        rw [List.getD_eq_getElem _ 0 this]
        exact hall _ (List.getElem_mem this)
      · have : b - 1 < d.shape.reverse.length := by omega
        unfold dimAt
        rw [List.getD_eq_getElem _ 0 this]
        exact hall _ (List.getElem_mem this)
      · exact cntNS_eq_self _ hall a (by omega)
      · exact cntNS_eq_self _ hall b (by omega)
  · simp only [hc, if_neg, ite_false] at hsq
    cases hax : axesLoop d.shape.reverse 0 0 h with
    | none => rw [hax] at hsq; simp at hsq
    | some h1 =>
      rw [hax] at hsq
      simp only [Option.some_bind, pure, Option.some.injEq, Prod.mk.injEq] at hsq
      obtain ⟨rfl, rfl⟩ := hsq
      obtain ⟨hpres, hndp⟩ := axesLoop_preserve d.shape.reverse 0 0 h h1 hax
      have hnd1 : (hkeys h1).Nodup := hndp hnd
      have houter := pcOuter_spec h1 d.shape.reverse d.shape.reverse 0 h1 rfl
        (by omega) hnd1
        (by
          intro a b ha1 han hb1 hbn
          exact (stVal_init h1 d.shape.reverse a b ha1 hb1).symm)
      have hfinal : ∀ a b, 1 ≤ a → a ≤ d.ndim → 1 ≤ b → b ≤ d.ndim →
          hlookup (hset (pcOuter d.shape.reverse d.shape.reverse 0 0 h1) ("NAXIS")
              (Val.vint (d.ndim - d.shape.count 1 : ℕ))) (pcKey a b)
            = (match ucFind d.shape.reverse a, ucFind d.shape.reverse b with
               | some i, some j => hlookup h1 (pcKey i j)
               | _, _ => none) := by
        intro a b ha1 han hb1 hbn
        have h5 := houter a b ha1 (by omega) hb1 (by omega)
        rw [stVal_end h1 d.shape.reverse a b ha1 (by omega)] at h5
        exact (hlookup_hset_ne _ _ _ _ (naxis_ne_pcKey a b)).trans h5
      constructor
      · intro i j hi1 hin hj1 hjn hNSi hNSj
        have hua : ucFind d.shape.reverse (cntNS d.shape.reverse i) = some i :=
          ucFind_eq_of _ _ i hi1 (by omega) hNSi rfl
        have hub : ucFind d.shape.reverse (cntNS d.shape.reverse j) = some j :=
          ucFind_eq_of _ _ j hj1 (by omega) hNSj rfl
        rw [hfinal _ _ (cntNS_pos_of_NS _ i hi1 (by omega) hNSi)
          (by have := cntNS_le d.shape.reverse i; omega)
          (cntNS_pos_of_NS _ j hj1 (by omega) hNSj)
          (by have := cntNS_le d.shape.reverse j; omega)]
        rw [hua, hub]
        exact hpres i j
      · intro a b ha1 han hb1 hbn v hv
        rw [hfinal a b ha1 han hb1 hbn] at hv
        cases hua : ucFind d.shape.reverse a with
        | none => rw [hua] at hv; simp at hv
        | some i =>
          cases hub : ucFind d.shape.reverse b with
          | none => rw [hua, hub] at hv; simp at hv
          | some j =>
            rw [hua, hub] at hv
            dsimp only at hv
            obtain ⟨hi1, hin, hiNS, hic⟩ := ucFind_some _ a i hua
            obtain ⟨hj1, hjn, hjNS, hjc⟩ := ucFind_some _ b j hub
            exact ⟨i, j, hi1, by omega, hj1, by omega, hiNS, hjNS, hic, hjc,
              by rw [← hpres i j]; exact hv⟩

/-- Witness for C4 at a concrete two-axis header whose first axis is
singleton: the retained pair (2, 2) migrates to the compacted pair and
keeps its value. -/
theorem C4_witness :
    hlookup [("NAXIS", Val.vint 1), ("STOKES", Val.vnum (-5)), ("NAXIS1", Val.vint 2),
      ("CTYPE1", Val.vstr "RA"), ("CRVAL1", Val.vnum 0), ("CDELT1", Val.vnum 1),
      ("CRPIX1", Val.vnum 1), ("CUNIT1", Val.vstr "deg"), ("PC01_1", Val.vnum 22)]
      (pcKey (cntNS (NDArray.mk [2, 1] [some 1, some 2]).shape.reverse 2)
        (cntNS (NDArray.mk [2, 1] [some 1, some 2]).shape.reverse 2))
      = hlookup [("NAXIS", Val.vint 2),
          ("NAXIS1", Val.vint 1), ("CTYPE1", Val.vstr "STOKES"), ("CRVAL1", Val.vnum (-5)),
          ("CDELT1", Val.vnum 1), ("CRPIX1", Val.vnum 1), ("CUNIT1", Val.vstr ""),
          ("NAXIS2", Val.vint 2), ("CTYPE2", Val.vstr "RA"), ("CRVAL2", Val.vnum 0),
          ("CDELT2", Val.vnum 1), ("CRPIX2", Val.vnum 1), ("CUNIT2", Val.vstr "deg"),
          ("PC01_1", Val.vnum 11), ("PC01_2", Val.vnum 12),
          ("PC02_1", Val.vnum 21), ("PC02_2", Val.vnum 22)] (pcKey 2 2) :=
  (C4_headersqueeze_pc
    [("NAXIS", Val.vint 2),
     ("NAXIS1", Val.vint 1), ("CTYPE1", Val.vstr "STOKES"), ("CRVAL1", Val.vnum (-5)),
     ("CDELT1", Val.vnum 1), ("CRPIX1", Val.vnum 1), ("CUNIT1", Val.vstr ""),
     ("NAXIS2", Val.vint 2), ("CTYPE2", Val.vstr "RA"), ("CRVAL2", Val.vnum 0),
     ("CDELT2", Val.vnum 1), ("CRPIX2", Val.vnum 1), ("CUNIT2", Val.vstr "deg"),
     ("PC01_1", Val.vnum 11), ("PC01_2", Val.vnum 12),
     ("PC02_1", Val.vnum 21), ("PC02_2", Val.vnum 22)]
    [("NAXIS", Val.vint 1), ("STOKES", Val.vnum (-5)), ("NAXIS1", Val.vint 2),
     ("CTYPE1", Val.vstr "RA"), ("CRVAL1", Val.vnum 0), ("CDELT1", Val.vnum 1),
     ("CRPIX1", Val.vnum 1), ("CUNIT1", Val.vstr "deg"), ("PC01_1", Val.vnum 22)]
    (NDArray.mk [2, 1] [some 1, some 2])
    (NDArray.mk [2] [some 1, some 2])
    (by decide) (by decide) (by decide)).1 2 2 (by decide) (by decide) (by decide)
    (by decide) (by decide) (by decide)
